import Mathlib

set_option maxHeartbeats 1000000

namespace Spec2Proof

/-!
Shallow embedding of the response-normalization pipeline of the
interview-coder repository: the extraction parser and solution parser of
`electron/responseParser.ts`, the `SmartTaskExtractor` content classifier of
`electron/imageProcessor.ts`, and the model cache of
`electron/providers/BaseProvider.ts` together with the `getAvailableModels`
implementations of the Ollama, OpenRouter and Gemini adapters.

Strings are modelled as `List Char`; the JavaScript regular expressions used
by the source are modelled by explicit scanners that follow the backtracking
semantics of the concrete patterns (documented at each definition).
-/

/-- Backtick character, written via its code point. -/
def btick : Char := Char.ofNat 96

/-- Bullet character U+2022 used in the bullet-point regex class. -/
def bulletDot : Char := Char.ofNat 0x2022

/-- JavaScript regex `\s` character class (WhiteSpace plus LineTerminator),
also the set trimmed by `String.prototype.trim`; compared on code points. -/
def jsIsSpace (c : Char) : Bool :=
  c.toNat = 32 || c.toNat = 9 || c.toNat = 10 || c.toNat = 11 || c.toNat = 12 ||
  c.toNat = 13 || c.toNat = 0xa0 || c.toNat = 0x1680 ||
  (0x2000 ≤ c.toNat && c.toNat ≤ 0x200a) || c.toNat = 0x2028 || c.toNat = 0x2029 ||
  c.toNat = 0x202f || c.toNat = 0x205f || c.toNat = 0x3000 || c.toNat = 0xfeff

/-- JavaScript regex `\w` class: ASCII letters, digits and underscore. -/
def jsIsWord (c : Char) : Bool :=
  (97 ≤ c.toNat && c.toNat ≤ 122) || (65 ≤ c.toNat && c.toNat ≤ 90) ||
  (48 ≤ c.toNat && c.toNat ≤ 57) || c.toNat = 95

/-- JavaScript regex `\d` class: the decimal digits. -/
def jsIsDigit (c : Char) : Bool := 48 ≤ c.toNat && c.toNat ≤ 57

/-- Case folding as performed by `String.prototype.toLowerCase` and by the
case-insensitive regex flag, restricted to the ASCII and Cyrillic letters —
the only alphabets occurring in the marker keywords of the source. -/
def lowerChar (c : Char) : Char :=
  if 'A' ≤ c && c ≤ 'Z' then Char.ofNat (c.toNat + 32)
  else if 0x410 ≤ c.toNat && c.toNat ≤ 0x42f then Char.ofNat (c.toNat + 32)
  else if c.toNat = 0x401 then Char.ofNat 0x451
  else c

/-- Lowercase a whole character list. -/
def lowerL (l : List Char) : List Char := l.map lowerChar

/-- Drop leading characters of the JavaScript whitespace class. -/
def dropWsL (l : List Char) : List Char := l.dropWhile jsIsSpace

/-- The semantics of `String.prototype.trim`. -/
def jsTrimL (l : List Char) : List Char :=
  ((l.dropWhile jsIsSpace).reverse.dropWhile jsIsSpace).reverse

/-- Match a literal pattern at the head of the text, returning the rest. -/
def charsMatch : List Char → List Char → Option (List Char)
  | [], l => some l
  | _ :: _, [] => none
  | p :: ps, c :: cs => if c = p then charsMatch ps cs else none

/-- Match a literal lowercase pattern case-insensitively at the head of the
text (the text is folded with `lowerChar`), returning the rest. -/
def lowerMatch : List Char → List Char → Option (List Char)
  | [], l => some l
  | _ :: _, [] => none
  | p :: ps, c :: cs => if lowerChar c = p then lowerMatch ps cs else none

/-- Semantics of `Array.prototype.join(sep)`. -/
def joinSep (sep : String) : List String → String
  | [] => ""
  | [x] => x
  | x :: y :: xs => x ++ sep ++ joinSep sep (y :: xs)

/-- Decide whether `pat` is a prefix of `l`. -/
def startsWithL (pat l : List Char) : Bool := (charsMatch pat l).isSome

/-- Semantics of `String.prototype.includes`: the needle occurs somewhere. -/
def containsL (needle : List Char) : List Char → Bool
  | [] => startsWithL needle []
  | c :: cs => startsWithL needle (c :: cs) || containsL needle cs

/-- String-level wrapper for `containsL`. -/
def jsIncludes (hay needle : String) : Bool := containsL needle.toList hay.toList

/-! ### JSON values and `JSON.parse`

`JSON.parse` is modelled by a strict recursive-descent parser over the JSON
grammar. Numbers are kept as their источник lexeme (the parser validates the
JSON number grammar); strings decode the escape sequences of the grammar.
A lone UTF-16 surrogate escape — which JavaScript would keep as an unpaired
surrogate code unit — is replaced by U+FFFD, the only divergence forced by
Lean characters being Unicode scalar values. -/

/-- JSON value tree produced by the modelled `JSON.parse`. -/
inductive Json where
  | null : Json
  | bool (b : Bool) : Json
  | num (lexeme : String) : Json
  | str (s : String) : Json
  | arr (elems : List Json) : Json
  | obj (fields : List (String × Json)) : Json

/-- Whitespace admitted by the JSON grammar (stricter than `\s`). -/
def jsonWs (c : Char) : Bool := c = ' ' || c = '\t' || c = '\n' || c = '\r'

/-- Hexadecimal digit value, on code points (digits, `a`-`f`, `A`-`F`). -/
def hexVal (c : Char) : Option Nat :=
  if 48 ≤ c.toNat ∧ c.toNat ≤ 57 then some (c.toNat - 48)
  else if 97 ≤ c.toNat ∧ c.toNat ≤ 102 then some (c.toNat - 87)
  else if 65 ≤ c.toNat ∧ c.toNat ≤ 70 then some (c.toNat - 55)
  else none

/-- Decode a `\uXXXX` code unit from four hex digits. -/
def hex4 (a b c d : Char) : Option Nat :=
  match hexVal a, hexVal b, hexVal c, hexVal d with
  | some x, some y, some z, some w => some (x * 4096 + y * 256 + z * 16 + w)
  | _, _, _, _ => none

/-- Parse the body of a JSON string after the opening quote; returns the
decoded characters and the rest after the closing quote. -/
def parseStrBody : Nat → List Char → List Char → Option (List Char × List Char)
  | 0, _, _ => none
  | _ + 1, [], _ => none
  | fuel + 1, c :: rest, acc =>
    if c = '"' then some (acc.reverse, rest)
    else if c = '\\' then
      match rest with
      | '"' :: r => parseStrBody fuel r ('"' :: acc)
      | '\\' :: r => parseStrBody fuel r ('\\' :: acc)
      | '/' :: r => parseStrBody fuel r ('/' :: acc)
      | 'b' :: r => parseStrBody fuel r (Char.ofNat 8 :: acc)
      | 'f' :: r => parseStrBody fuel r (Char.ofNat 12 :: acc)
      | 'n' :: r => parseStrBody fuel r ('\n' :: acc)
      | 'r' :: r => parseStrBody fuel r ('\r' :: acc)
      | 't' :: r => parseStrBody fuel r ('\t' :: acc)
      | 'u' :: h1 :: h2 :: h3 :: h4 :: r =>
        match hex4 h1 h2 h3 h4 with
        | none => none
        | some cp =>
          if 0xd800 ≤ cp && cp ≤ 0xdbff then
            match r with
            | '\\' :: 'u' :: g1 :: g2 :: g3 :: g4 :: r2 =>
              match hex4 g1 g2 g3 g4 with
              | some lo =>
                if 0xdc00 ≤ lo && lo ≤ 0xdfff then
                  parseStrBody fuel r2
                    (Char.ofNat (0x10000 + (cp - 0xd800) * 0x400 + (lo - 0xdc00)) :: acc)
                else parseStrBody fuel r (Char.ofNat 0xfffd :: acc)
              | none => parseStrBody fuel r (Char.ofNat 0xfffd :: acc)
            | _ => parseStrBody fuel r (Char.ofNat 0xfffd :: acc)
          else if 0xdc00 ≤ cp && cp ≤ 0xdfff then
            parseStrBody fuel r (Char.ofNat 0xfffd :: acc)
          else parseStrBody fuel r (Char.ofNat cp :: acc)
      | _ => none
    else if c.toNat < 0x20 then none
    else parseStrBody fuel rest (c :: acc)

/-- Parse a JSON number lexeme `-?(0|[1-9][0-9]*)(\.[0-9]+)?([eE][+-]?[0-9]+)?`,
returning the lexeme and the rest. -/
def parseNumLex (l : List Char) : Option (List Char × List Char) :=
  let (sign, l1) := match l with
    | '-' :: r => (['-'], r)
    | r => (([] : List Char), r)
  match l1 with
  | [] => none
  | c :: _ =>
    if ¬ jsIsDigit c then none
    else
      let intPart := if c = '0' then ['0'] else l1.takeWhile jsIsDigit
      let l2 := l1.drop intPart.length
      let (fracPart, l3) := match l2 with
        | '.' :: r =>
          let ds := r.takeWhile jsIsDigit
          if ds = [] then (([] : List Char), l2) else ('.' :: ds, r.drop ds.length)
        | _ => (([] : List Char), l2)
      match l3 with
      | e :: r4 =>
        if e = 'e' ∨ e = 'E' then
          let (es, r5) := match r4 with
            | '+' :: r => (([e, '+'] : List Char), r)
            | '-' :: r => (([e, '-'] : List Char), r)
            | r => ([e], r)
          let ds := r5.takeWhile jsIsDigit
          if ds = [] then some (sign ++ intPart ++ fracPart, l3)
          else some (sign ++ intPart ++ fracPart ++ es ++ ds, r5.drop ds.length)
        else some (sign ++ intPart ++ fracPart, l3)
      | [] => some (sign ++ intPart ++ fracPart, l3)

/-- Requests for the single-function JSON recursive-descent parser: a value,
the tail of an array (after `[`), or the tail of an object (after `{`). -/
inductive JReq where
  | val : JReq
  | arrTail (acc : List Json) (first : Bool) : JReq
  | objTail (acc : List (String × Json)) (first : Bool) : JReq

/-- Results corresponding to `JReq`. -/
inductive JRes where
  | val (v : Json) : JRes
  | arrTail (xs : List Json) : JRes
  | objTail (fs : List (String × Json)) : JRes

/-- Strict JSON parser core; fuel-indexed so that it is structurally
recursive and kernel-evaluable. -/
def parseJ : Nat → JReq → List Char → Option (JRes × List Char)
  | 0, _, _ => none
  | fuel + 1, JReq.val, l =>
    let l := l.dropWhile jsonWs
    match l with
    | [] => none
    | c :: rest =>
      if c = 'n' then
        match charsMatch ['u', 'l', 'l'] rest with
        | some r => some (JRes.val Json.null, r)
        | none => none
      else if c = 't' then
        match charsMatch ['r', 'u', 'e'] rest with
        | some r => some (JRes.val (Json.bool true), r)
        | none => none
      else if c = 'f' then
        match charsMatch ['a', 'l', 's', 'e'] rest with
        | some r => some (JRes.val (Json.bool false), r)
        | none => none
      else if c = '"' then
        match parseStrBody fuel rest [] with
        | some (body, r) => some (JRes.val (Json.str ⟨body⟩), r)
        | none => none
      else if c = '-' ∨ jsIsDigit c then
        match parseNumLex (c :: rest) with
        | some (lex, r) => some (JRes.val (Json.num ⟨lex⟩), r)
        | none => none
      else if c = '[' then
        match parseJ fuel (JReq.arrTail [] true) rest with
        | some (JRes.arrTail xs, r) => some (JRes.val (Json.arr xs), r)
        | _ => none
      else if c = '{' then
        match parseJ fuel (JReq.objTail [] true) rest with
        | some (JRes.objTail fs, r) => some (JRes.val (Json.obj fs), r)
        | _ => none
      else none
  | fuel + 1, JReq.arrTail acc first, l =>
    let l := l.dropWhile jsonWs
    match l with
    | [] => none
    | c :: rest =>
      if c = ']' ∧ first then some (JRes.arrTail acc.reverse, rest)
      else
        let start := if first then c :: rest else
          match c :: rest with
          | ',' :: r => r
          | _ => []
        if ¬ first ∧ c ≠ ',' then none
        else
          match parseJ fuel JReq.val start with
          | some (JRes.val v, r) =>
            let r := r.dropWhile jsonWs
            match r with
            | ']' :: r2 => some (JRes.arrTail (v :: acc).reverse, r2)
            | ',' :: _ => parseJ fuel (JReq.arrTail (v :: acc) false) r
            | _ => none
          | _ => none
  | fuel + 1, JReq.objTail acc first, l =>
    let l := l.dropWhile jsonWs
    match l with
    | [] => none
    | c :: rest =>
      if c = '}' ∧ first then some (JRes.objTail acc.reverse, rest)
      else
        let start := if first then c :: rest else
          match c :: rest with
          | ',' :: r => r.dropWhile jsonWs
          | _ => []
        if ¬ first ∧ c ≠ ',' then none
        else
          match start with
          | '"' :: skey =>
            match parseStrBody fuel skey [] with
            | some (key, r) =>
              let r := r.dropWhile jsonWs
              match r with
              | ':' :: rv =>
                match parseJ fuel JReq.val rv with
                | some (JRes.val v, r2) =>
                  let r2 := r2.dropWhile jsonWs
                  match r2 with
                  | '}' :: r3 => some (JRes.objTail ((⟨key⟩, v) :: acc).reverse, r3)
                  | ',' :: _ => parseJ fuel (JReq.objTail ((⟨key⟩, v) :: acc) false) r2
                  | _ => none
                | _ => none
              | _ => none
            | none => none
          | _ => none

/-- Model of `JSON.parse`: parse one value with surrounding whitespace and
require the whole input to be consumed; `none` models a thrown SyntaxError. -/
def jsonParse (s : String) : Option Json :=
  match parseJ (2 * s.toList.length + 8) JReq.val s.toList with
  | some (JRes.val v, rest) => if rest.dropWhile jsonWs = [] then some v else none
  | _ => none

/-! ### `parseProblemInfoResponse` (electron/responseParser.ts, lines 7-32)

`content.replace(/```json|```/g, '')` scans left to right trying the
alternative ` ```json ` before ` ``` ` at each position;
`cleaned.match(/\{[\s\S]*\}/)` takes the greedy span from the first opening
brace to the last closing brace, provided the latter lies after the former. -/

/-- Literal pattern for the markdown fence marker with json tag. -/
def fenceJson : List Char := [btick, btick, btick, 'j', 's', 'o', 'n']

/-- Literal pattern for the bare markdown fence marker. -/
def fence3 : List Char := [btick, btick, btick]

/-- Semantics of `replace(/```json|```/g, '')`. -/
def stripFences : Nat → List Char → List Char
  | 0, _ => []
  | _ + 1, [] => []
  | fuel + 1, c :: cs =>
    match charsMatch fenceJson (c :: cs) with
    | some rest => stripFences fuel rest
    | none =>
      match charsMatch fence3 (c :: cs) with
      | some rest => stripFences fuel rest
      | none => c :: stripFences fuel cs

/-- Semantics of `cleaned.match(/\{[\s\S]*\}/)`: the span from the first
opening brace to the last closing brace, when such a span exists. -/
def braceSpan (l : List Char) : Option (List Char) :=
  let rest := l.drop (l.takeWhile (· != '{')).length
  let revSpan := rest.reverse.drop (rest.reverse.takeWhile (· != '}')).length
  if rest = [] ∨ revSpan = [] then none else some revSpan.reverse

/-- The `cleaned` variable of `parseProblemInfoResponse` at the point where
`JSON.parse` is attempted: fence markers removed, trimmed, then narrowed to
the greedy brace span when one is found. -/
def cleanedList (content : List Char) : List Char :=
  let trimmed := jsTrimL (stripFences (content.length + 1) content)
  match braceSpan trimmed with
  | some span => span
  | none => trimmed

/-- String-level wrapper for `cleanedList`. -/
def cleanedOf (content : String) : String := ⟨cleanedList content.toList⟩

/-- The fallback record built by `parseProblemInfoResponse` on parse failure. -/
structure FallbackInfo where
  problem_statement : String
  constraints : String
  example_input : String
  example_output : String
  _raw_response : String
  _parse_error : Bool
deriving DecidableEq

/-- Result of `parseProblemInfoResponse`: either the parsed JSON value or the
synthesized fallback record. -/
inductive ProblemInfoResult where
  | parsed (v : Json)
  | fallback (info : FallbackInfo)

/-- Model of `parseProblemInfoResponse` (responseParser.ts lines 7-32). The
function is total: a `JSON.parse` failure is caught and produces the fallback
record instead of an exception. -/
def parseProblemInfoResponse (content : String) : ProblemInfoResult :=
  let cleaned := cleanedOf content
  match jsonParse cleaned with
  | some v => ProblemInfoResult.parsed v
  | none =>
    ProblemInfoResult.fallback
      { problem_statement := cleaned
        constraints := "No specific constraints extracted"
        example_input := "Not extracted"
        example_output := "Not extracted"
        _raw_response := content
        _parse_error := true }

/-! ### `parseMultiTaskResponse` (electron/responseParser.ts, lines 38-120) -/

/-- Earliest split of `l` as `before ++ fence3 ++ after`, used for the lazy
body of `/```(?:\w+)?\s*([\s\S]*?)```/`. -/
def findFence3 : List Char → Option (List Char × List Char)
  | [] => none
  | c :: cs =>
    match charsMatch fence3 (c :: cs) with
    | some rest => some ([], rest)
    | none =>
      match findFence3 cs with
      | some (before, after) => some (c :: before, after)
      | none => none

/-- All captures of `matchAll(/```(?:\w+)?\s*([\s\S]*?)```/g)` in order of
appearance. After an opening fence the greedy optional word tag and greedy
whitespace are consumed, then the lazy body runs to the earliest closing
fence; if no closing fence exists there is no further match (a later opening
fence would itself have served as a closing fence). -/
def cbScan : Nat → List Char → List (List Char)
  | 0, _ => []
  | _ + 1, [] => []
  | fuel + 1, c :: cs =>
    match charsMatch fence3 (c :: cs) with
    | some r =>
      let r2 := (r.dropWhile jsIsWord).dropWhile jsIsSpace
      match findFence3 r2 with
      | some (body, rest) => body :: cbScan fuel rest
      | none => []
    | none => cbScan fuel cs

/-- Code block captures of the solution parser, as strings. -/
def codeBlocksOf (s : String) : List String :=
  (cbScan (s.toList.length + 1) s.toList).map (fun l => (⟨l⟩ : String))

/-- JavaScript `String.prototype.trim` on strings. -/
def jsTrim (s : String) : String := ⟨jsTrimL s.toList⟩

/-- Task header used when relabeling code blocks: `Задача N`. -/
def taskTitle (n : Nat) : String := "Задача " ++ Nat.repr n

/-- Header line prefixed to each extracted code block. -/
def codeHeader (n : Nat) : String :=
  "// ========== " ++ taskTitle n ++ " ==========\n\n"

/-- The `code` field of `parseMultiTaskResponse`: all blocks with headers
joined by blank lines when more than one, a single headed block when one,
the raw response when none. -/
def codeOf (responseContent : String) : String :=
  let codeMatches := codeBlocksOf responseContent
  match codeMatches with
  | [] => responseContent
  | [b] => codeHeader 1 ++ jsTrim b
  | bs =>
    joinSep "\n\n\n"
      (bs.mapIdx (fun i b => codeHeader (i + 1) ++ jsTrim b))

/-- Lookahead `(?=###|##|Временная|Time complexity|$)` of the thoughts
pattern, tested at the head of the remaining text (end of input always
qualifies via the caller). -/
def thLookahead (l : List Char) : Bool :=
  startsWithL ['#', '#', '#'] l || startsWithL ['#', '#'] l ||
  (lowerMatch "временная".toList l).isSome ||
  (lowerMatch "time complexity".toList l).isSome

/-- Take characters until the thoughts lookahead holds (or input ends),
returning the capture and the rest. -/
def takeUntilTh : List Char → List Char × List Char
  | [] => ([], [])
  | c :: cs =>
    if thLookahead (c :: cs) then ([], c :: cs)
    else
      let (b, r) := takeUntilTh cs
      (c :: b, r)

/-- Match `/(?:Размышления|Thoughts):?\s*([\s\S]*?)(?=...)/i` at the head of
the text: the label case-insensitively, an optional colon, greedy whitespace,
then the lazy capture up to the lookahead. -/
def matchThoughtsAt (l : List Char) : Option (List Char × List Char) :=
  let afterLabel :=
    match lowerMatch "размышления".toList l with
    | some r => some r
    | none => lowerMatch "thoughts".toList l
  match afterLabel with
  | none => none
  | some r =>
    let r2 := match r with
      | ':' :: rr => rr
      | _ => r
    let r3 := r2.dropWhile jsIsSpace
    some (takeUntilTh r3)

/-- All captures of the global thoughts pattern, scanning left to right and
resuming at each match end (the lookahead is not consumed). -/
def thScan : Nat → List Char → List (List Char)
  | 0, _ => []
  | _ + 1, [] => []
  | fuel + 1, c :: cs =>
    match matchThoughtsAt (c :: cs) with
    | some (body, rest) => body :: thScan fuel rest
    | none => thScan fuel cs

/-- Bullet marker alternative `(?:[-*•]|\d+\.)`: one bullet character, or
digits followed by a dot; returns the rest on success. -/
def bulletMark (l : List Char) : Option (List Char) :=
  match l with
  | '-' :: r => some r
  | '*' :: r => some r
  | c :: r =>
    if c = bulletDot then some r
    else
      let ds := l.takeWhile jsIsDigit
      if ds = [] then none
      else
        match l.drop ds.length with
        | '.' :: r2 => some r2
        | _ => none
  | [] => none

/-- Match `\s*(?:[-*•]|\d+\.)\s*(.*)` at the head (the part of the bullet
pattern after `(?:^|\n)`): greedy whitespace, a bullet marker, greedy
whitespace, then the rest of the line. Returns the consumed characters and
the rest of the input. -/
def matchBulletAt (l : List Char) : Option (List Char × List Char) :=
  let ws1 := l.takeWhile jsIsSpace
  let r1 := l.drop ws1.length
  match bulletMark r1 with
  | none => none
  | some r2 =>
    let r3 := r2.dropWhile jsIsSpace
    let line := r3.takeWhile (· != '\n')
    let rest := r3.drop line.length
    some (l.take (l.length - rest.length), rest)

/-- All full matches of `/(?:^|\n)\s*(?:[-*•]|\d+\.)\s*(.*)/g` over a section
body. Each returned element is the full match string (leading newline
included when matched). -/
def blScan : Nat → Bool → List Char → List (List Char)
  | 0, _, _ => []
  | _ + 1, _, [] => []
  | fuel + 1, atStart, c :: cs =>
    if atStart then
      match matchBulletAt (c :: cs) with
      | some (m, rest) => m :: blScan fuel false rest
      | none =>
        if c = '\n' then
          match matchBulletAt cs with
          | some (m, rest) => ('\n' :: m) :: blScan fuel false rest
          | none => blScan fuel false cs
        else blScan fuel false cs
    else
      if c = '\n' then
        match matchBulletAt cs with
        | some (m, rest) => ('\n' :: m) :: blScan fuel false rest
        | none => blScan fuel false cs
      else blScan fuel false cs

/-- Semantics of `point.replace(/^\s*(?:[-*•]|\d+\.)\s*/, '')`: remove the
bullet prefix when the anchored pattern matches, otherwise leave unchanged. -/
def stripBullet (l : List Char) : List Char :=
  let ws1 := l.takeWhile jsIsSpace
  let r1 := l.drop ws1.length
  match bulletMark r1 with
  | none => l
  | some r2 => r2.dropWhile jsIsSpace

/-- Semantics of `String.prototype.split` with separator `\n`. -/
def splitOnNl : List Char → List (List Char)
  | [] => [[]]
  | c :: cs =>
    if c = '\n' then [] :: splitOnNl cs
    else
      match splitOnNl cs with
      | s :: ss => (c :: s) :: ss
      | [] => [[c]]

/-- Thought entries contributed by one thoughts section (the `forEach` body
over `allThoughts`): bullet points when found, otherwise nonempty trimmed
lines; a per-task header is prepended when several sections exist. -/
def sectionThoughts (multi : Bool) (i : Nat) (body : List Char) : List String :=
  let bullets := blScan (body.length + 1) true body
  match bullets with
  | _ :: _ =>
    (if multi then ["**" ++ taskTitle (i + 1) ++ ":**"] else []) ++
      bullets.map (fun p => jsTrim ⟨stripBullet p⟩)
  | [] =>
    let lines := ((splitOnNl body).map (fun ln => jsTrim ⟨ln⟩)).filter (· != "")
    match lines with
    | [] => []
    | _ :: _ =>
      (if multi then ["**" ++ taskTitle (i + 1) ++ ":**"] else []) ++ lines

/-- The `thoughts` accumulator of `parseMultiTaskResponse` before the final
placeholder substitution. -/
def rawThoughtsOf (s : String) : List String :=
  let secs := thScan (s.toList.length + 1) s.toList
  (secs.mapIdx (fun i b => sectionThoughts (secs.length > 1) i b)).flatten

/-- First case-insensitive alternative of `pats` matching at the head. -/
def firstLowerMatch : List (List Char) → List Char → Option (List Char)
  | [], _ => none
  | p :: ps, l =>
    match lowerMatch p l with
    | some r => some r
    | none => firstLowerMatch ps l

/-- Does one of the lookahead alternatives match at the head. -/
def cxAlt (alts : List (List Char)) (l : List Char) : Bool :=
  alts.any (fun a => (lowerMatch a l).isSome)

/-- Lookahead `(?=\n\s*(?:alt1|...|$))` of the complexity patterns, tested at
the current rest of input: a newline, greedy whitespace, then one of the
alternatives or the end of input. -/
def cxLook (alts : List (List Char)) (rest : List Char) : Bool :=
  match rest with
  | '\n' :: u =>
    let p := u.dropWhile jsIsSpace
    p.isEmpty || cxAlt alts p
  | _ => false

/-- Backtracking of greedy `\s*` before a `[^\n]+` capture: `wRev` is the
reversed consumed whitespace; return the suffix at which the capture can
start (the largest whitespace position whose character is not a newline). -/
def wsBack : List Char → List Char → Option (List Char)
  | [], r =>
    match r with
    | c :: _ => if c = '\n' then none else some r
    | [] => none
  | w :: ws, r =>
    match r with
    | c :: _ => if c = '\n' then wsBack ws (w :: r) else some r
    | [] => wsBack ws (w :: r)

/-- Extend the complexity capture line by line (`(?:\n[^\n]+)*?`, lazy) until
the lookahead holds; fails when the input ends or a blank line occurs before
any lookahead position. -/
def cxWalk (alts : List (List Char)) : Nat → List Char → List Char → Option (List Char × List Char)
  | 0, _, _ => none
  | fuel + 1, acc, rest =>
    if cxLook alts rest then some (acc, rest)
    else
      match rest with
      | '\n' :: u =>
        match u with
        | c :: _ =>
          if c = '\n' then none
          else
            let line := u.takeWhile (· != '\n')
            cxWalk alts fuel (acc ++ '\n' :: line) (u.drop line.length)
        | [] => none
      | _ => none

/-- Match one complexity pattern occurrence at the head of the text: the
label case-insensitively, optional colon, greedy whitespace (with the
backtracking required by the following `[^\n]+`), then the line-structured
lazy capture bounded by the lookahead. -/
def matchCxAt (labels alts : List (List Char)) (l : List Char) : Option (List Char × List Char) :=
  match firstLowerMatch labels l with
  | none => none
  | some r =>
    let r2 := match r with
      | ':' :: rr => rr
      | _ => r
    let w := r2.takeWhile jsIsSpace
    let rw := r2.drop w.length
    match wsBack w.reverse rw with
    | none => none
    | some rc =>
      let line1 := rc.takeWhile (· != '\n')
      cxWalk alts (rc.length + 1) line1 (rc.drop line1.length)

/-- All captures of a global complexity pattern over the whole text. -/
def cxScan (labels alts : List (List Char)) : Nat → List Char → List (List Char)
  | 0, _ => []
  | _ + 1, [] => []
  | fuel + 1, c :: cs =>
    match matchCxAt labels alts (c :: cs) with
    | some (cap, rest) => cap :: cxScan labels alts fuel rest
    | none => cxScan labels alts fuel cs

/-- Labels of the time-complexity pattern. -/
def timeLabels : List (List Char) :=
  ["временная сложность".toList, "time complexity".toList]

/-- Lookahead alternatives of the time-complexity pattern. -/
def timeAlts : List (List Char) :=
  ["пространственная".toList, "space complexity".toList, "###".toList, "##".toList, "---".toList]

/-- Labels of the space-complexity pattern. -/
def spaceLabels : List (List Char) :=
  ["пространственная сложность".toList, "space complexity".toList]

/-- Lookahead alternatives of the space-complexity pattern. -/
def spaceAlts : List (List Char) :=
  ["###".toList, "##".toList, "---".toList, "задача".toList]

/-- The `time_complexity` field of `parseMultiTaskResponse`. -/
def timeComplexityOf (s : String) : String :=
  let ms := cxScan timeLabels timeAlts (s.toList.length + 1) s.toList
  match ms with
  | [] => "O(n) - Линейная сложность"
  | [m] => "**" ++ taskTitle 1 ++ ":** " ++ jsTrim ⟨m⟩
  | _ =>
    joinSep "\n\n"
      (ms.mapIdx (fun i m => "**" ++ taskTitle (i + 1) ++ ":** " ++ jsTrim ⟨m⟩))

/-- The `space_complexity` field of `parseMultiTaskResponse`. -/
def spaceComplexityOf (s : String) : String :=
  let ms := cxScan spaceLabels spaceAlts (s.toList.length + 1) s.toList
  match ms with
  | [] => "O(1) - Константная память"
  | [m] => "**" ++ taskTitle 1 ++ ":** " ++ jsTrim ⟨m⟩
  | _ =>
    joinSep "\n\n"
      (ms.mapIdx (fun i m => "**" ++ taskTitle (i + 1) ++ ":** " ++ jsTrim ⟨m⟩))

/-- Result record of `parseMultiTaskResponse`. -/
structure SolutionResult where
  code : String
  thoughts : List String
  time_complexity : String
  space_complexity : String
deriving DecidableEq

/-- Placeholder thought substituted when no thoughts were extracted. -/
def defaultThought : String := "Решение оптимизировано для читаемости и эффективности"

/-- Model of `parseMultiTaskResponse` (responseParser.ts lines 38-120). -/
def parseMultiTaskResponse (responseContent : String) : SolutionResult :=
  { code := codeOf responseContent
    thoughts :=
      let ts := rawThoughtsOf responseContent
      if ts.length > 0 then ts else [defaultThought]
    time_complexity := timeComplexityOf responseContent
    space_complexity := spaceComplexityOf responseContent }

/-! ### `SmartTaskExtractor` (electron/imageProcessor.ts, lines 2585-2769) -/

/-- Content categories; constructor names follow the string literals returned
by `detectContentType` and `parseExtraction` (the source writes
`multithreading`, which the specification calls `multithreading_task`). -/
inductive CType where
  | coding_task
  | code_review
  | sql_task
  | multithreading
  | multiple_tasks
  | mixed
deriving DecidableEq

/-- Review markers of `detectContentType`, over the lowercased text. -/
def reviewMarker (lower : List Char) : Bool :=
  containsL "review".toList lower ||
  containsL "провести ревью".toList lower ||
  containsL "code review".toList lower ||
  (containsL "@service".toList lower || containsL "@autowired".toList lower)

/-- SQL markers of `detectContentType`, over the lowercased text. -/
def sqlMarker (lower : List Char) : Bool :=
  containsL "sql".toList lower || containsL "таблицы".toList lower ||
  containsL "select".toList lower || containsL "join".toList lower

/-- Concurrency markers of `detectContentType`, over the lowercased text. -/
def mtMarker (lower : List Char) : Bool :=
  containsL "многопоточ".toList lower || containsL "multithread".toList lower ||
  containsL "parallel".toList lower || containsL "потоках".toList lower

/-- Match of `/(задача|task)\s*\d+/i` at the head of the (lowercased) text. -/
def numberedTaskAt (l : List Char) : Bool :=
  match firstLowerMatch ["задача".toList, "task".toList] l with
  | some r =>
    match r.dropWhile jsIsSpace with
    | c :: _ => jsIsDigit c
    | [] => false
  | none => false

/-- Existence of a `/(задача|task)\s*\d+/i` match anywhere in the text. -/
def hasNumberedTask : List Char → Bool
  | [] => false
  | c :: cs => numberedTaskAt (c :: cs) || hasNumberedTask cs

/-- Model of `SmartTaskExtractor.detectContentType`: fixed priority order on
the lowercased text, first match wins. -/
def detectContentType (text : String) : CType :=
  let lower := lowerL text.toList
  if reviewMarker lower then CType.code_review
  else if sqlMarker lower then CType.sql_task
  else if mtMarker lower then CType.multithreading
  else if hasNumberedTask lower then CType.multiple_tasks
  else CType.coding_task

/-- First capture of `/```(?:\w+)?\s*([\s\S]*?)```/` (non-global match). -/
def firstCodeBlock (s : String) : Option String :=
  match cbScan (s.toList.length + 1) s.toList with
  | b :: _ => some (jsTrim ⟨b⟩)
  | [] => none

/-- Model of `SmartTaskExtractor.extractCode`: the first fenced block
(trimmed), else the whole text when it carries Java annotations or a class
declaration (case-sensitive checks), else nothing. -/
def extractCode (text : String) : Option String :=
  match firstCodeBlock text with
  | some c => some c
  | none =>
    if jsIncludes text "@Service" || jsIncludes text "public class" then some text
    else none

/-- Model of `SmartTaskExtractor.detectLanguage` (case-sensitive includes,
with the JavaScript precedence `a || (b && c)` on the python line). -/
def detectLanguage (text : String) : String :=
  if jsIncludes text "@Service" || jsIncludes text "@Autowired" then "java"
  else if jsIncludes text "def " || (jsIncludes text "import " && jsIncludes text ":") then "python"
  else if jsIncludes text "SELECT " || jsIncludes text "FROM " then "sql"
  else if jsIncludes text "public class" then "java"
  else if jsIncludes text "function " then "javascript"
  else "unknown"

/-- Semantics of `text.split(/[.!?]/)`. -/
def splitSentences : List Char → List (List Char)
  | [] => [[]]
  | c :: cs =>
    if c = '.' ∨ c = '!' ∨ c = '?' then [] :: splitSentences cs
    else
      match splitSentences cs with
      | s :: ss => (c :: s) :: ss
      | [] => [[c]]

/-- Model of `SmartTaskExtractor.extractContext`: first two sentence pieces
joined by a dot and space. -/
def extractContext (text : String) : String :=
  joinSep ". " (((splitSentences text.toList).take 2).map (fun l => (⟨l⟩ : String)))

/-- Model of `SmartTaskExtractor.extractSchema`. -/
def extractSchema (text : String) : Option String :=
  if jsIncludes text "employee" && jsIncludes text "department" then
    some ("employee(id, department_id, work_start_date, name, salary)\n" ++
      "department(id, name, lead_id)")
  else none

/-- Model of `SmartTaskExtractor.extractRequirements`: lines containing a
comparison keyword or a digit, trimmed. -/
def extractRequirements (text : String) : List String :=
  ((splitOnNl text.toList).filter (fun line =>
    containsL "делятся на".toList line || containsL "меньше".toList line ||
    containsL "больше".toList line || line.any jsIsDigit)).map (fun l => jsTrim ⟨l⟩)

/-- Coding-task payload of `ExtractedContent`. -/
structure CodingTask where
  originalCode : Option String
  description : String
  language : String
  requirements : List String
deriving DecidableEq

/-- Code-review payload of `ExtractedContent`. -/
structure CodeReview where
  originalCode : String
  language : String
  context : String
deriving DecidableEq

/-- SQL payload of `ExtractedContent`. -/
structure SqlTaskInfo where
  description : String
  schema : Option String
deriving DecidableEq

/-- The `ExtractedContent` record produced by the classifier; recursive via
`multipleTasks`, hence an inductive with explicit projections. -/
inductive ExtractedContent where
  | mk (type : CType) (rawText : String)
      (codingTask : Option CodingTask)
      (codeReview : Option CodeReview)
      (sqlTask : Option SqlTaskInfo)
      (multipleTasks : Option (List ExtractedContent))

/-- Category of an extracted record. -/
def ExtractedContent.type : ExtractedContent → CType
  | ExtractedContent.mk t _ _ _ _ _ => t

/-- Raw text of an extracted record. -/
def ExtractedContent.rawText : ExtractedContent → String
  | ExtractedContent.mk _ r _ _ _ _ => r

/-- Coding-task payload of an extracted record. -/
def ExtractedContent.codingTask : ExtractedContent → Option CodingTask
  | ExtractedContent.mk _ _ c _ _ _ => c

/-- Code-review payload of an extracted record. -/
def ExtractedContent.codeReview : ExtractedContent → Option CodeReview
  | ExtractedContent.mk _ _ _ c _ _ => c

/-- SQL payload of an extracted record. -/
def ExtractedContent.sqlTask : ExtractedContent → Option SqlTaskInfo
  | ExtractedContent.mk _ _ _ _ s _ => s

/-- Sub-task list of an extracted record. -/
def ExtractedContent.multipleTasks : ExtractedContent → Option (List ExtractedContent)
  | ExtractedContent.mk _ _ _ _ _ m => m

/-- Marker alternative `\d+\.` of the task-splitting pattern. -/
def tryNumDot (l : List Char) : Option (List Char) :=
  let ds := l.takeWhile jsIsDigit
  if ds = [] then none
  else
    match l.drop ds.length with
    | '.' :: r => some r
    | _ => none

/-- Marker alternative `word\s*\d+:` of the task-splitting pattern. -/
def tryWordNum (word : List Char) (l : List Char) : Option (List Char) :=
  match charsMatch word l with
  | none => none
  | some r1 =>
    let r2 := r1.dropWhile jsIsSpace
    let ds := r2.takeWhile jsIsDigit
    if ds = [] then none
    else
      match r2.drop ds.length with
      | ':' :: r3 => some r3
      | _ => none

/-- Literal `Задача` (case-sensitive, as in the splitting pattern). -/
def zadachaChars : List Char := "Задача".toList

/-- Literal `Task` (case-sensitive, as in the splitting pattern). -/
def taskChars : List Char := "Task".toList

/-- Numbered-task marker `(?:\d+\.|Задача\s*\d+:|Task\s*\d+:)`. -/
def tryTaskMark (l : List Char) : Option (List Char) :=
  match tryNumDot l with
  | some r => some r
  | none =>
    match tryWordNum zadachaChars l with
    | some r => some r
    | none => tryWordNum taskChars l

/-- Negative lookahead `(?!\d+\.|Задача|Task)` of the continuation group. -/
def contBreak (l : List Char) : Bool :=
  (tryNumDot l).isSome || startsWithL zadachaChars l || startsWithL taskChars l

/-- Greedy continuation `(?:\n(?!\d+\.|Задача|Task)[^\n]+)*` of the task
capture: append further nonempty lines while the lookahead admits them. -/
def taskCont : Nat → List Char → List Char → List Char × List Char
  | 0, acc, rest => (acc, rest)
  | fuel + 1, acc, rest =>
    match rest with
    | '\n' :: u =>
      if contBreak u then (acc, rest)
      else
        match u with
        | c :: _ =>
          if c = '\n' then (acc, rest)
          else
            let line := u.takeWhile (· != '\n')
            taskCont fuel (acc ++ '\n' :: line) (u.drop line.length)
        | [] => (acc, rest)
    | _ => (acc, rest)

/-- Match the task pattern with the `(?:^|\n)` part already consumed: the
marker, greedy whitespace (with backtracking for the following `[^\n]+`),
the first line and the greedy continuation. -/
def matchTaskAt (l : List Char) : Option (List Char × List Char) :=
  match tryTaskMark l with
  | none => none
  | some r =>
    let w := r.takeWhile jsIsSpace
    let rw := r.drop w.length
    match wsBack w.reverse rw with
    | none => none
    | some rc =>
      let line1 := rc.takeWhile (· != '\n')
      some (taskCont (rc.length + 1) line1 (rc.drop line1.length))

/-- Scanning loop of the global task pattern at positions past the start:
a match may begin only where a newline is consumed by `(?:^|\n)`. -/
def taskScanFrom : Nat → List Char → List (List Char)
  | 0, _ => []
  | _ + 1, [] => []
  | fuel + 1, c :: cs =>
    if c = '\n' then
      match matchTaskAt cs with
      | some (cap, rest) => cap :: taskScanFrom fuel rest
      | none => taskScanFrom fuel cs
    else taskScanFrom fuel cs

/-- All captures of the global task pattern: the `^` alternative applies at
position zero only. -/
def splitScanL (l : List Char) : List (List Char) :=
  match matchTaskAt l with
  | some (cap, rest) => cap :: taskScanFrom (l.length + 1) rest
  | none => taskScanFrom (l.length + 1) l

/-- Element built by `splitIntoTasks` for one captured span. -/
def mkTaskElem (cap : List Char) : ExtractedContent :=
  let taskText : String := jsTrim ⟨cap⟩
  ExtractedContent.mk (detectContentType taskText) taskText
    (some { originalCode := none
            description := taskText
            language := detectLanguage taskText
            requirements := extractRequirements taskText })
    none none none

/-- Model of `SmartTaskExtractor.splitIntoTasks` (lines 2704-2726). -/
def splitIntoTasks (text : String) : List ExtractedContent :=
  (splitScanL text.toList).map mkTaskElem

/-- The `code || response` idiom: an absent or empty extracted code falls
back to the whole response (the empty string is falsy in JavaScript). -/
def codeOrResponse (code : Option String) (response : String) : String :=
  match code with
  | some c => if c = "" then response else c
  | none => response

/-- Model of `SmartTaskExtractor.parseExtraction` (lines 2647-2699). -/
def parseExtraction (response : String) : ExtractedContent :=
  let type := detectContentType response
  let code := extractCode response
  if type = CType.multiple_tasks || jsIncludes response "1." then
    ExtractedContent.mk CType.mixed response none none none (some (splitIntoTasks response))
  else
    match type with
    | CType.code_review =>
      ExtractedContent.mk type response none
        (some { originalCode := codeOrResponse code response
                language := detectLanguage response
                context := extractContext response })
        none none
    | CType.sql_task =>
      ExtractedContent.mk type response none none
        (some { description := response, schema := extractSchema response }) none
    | _ =>
      ExtractedContent.mk type response
        (some { originalCode := some (codeOrResponse code response)
                description := response
                language := detectLanguage response
                requirements := extractRequirements response })
        none none none

/-! ### Model cache (BaseProvider.fetchModelsWithCache, shared/types.ts 69-78)
and the `getAvailableModels` of the Ollama, OpenRouter and Gemini adapters.

The cache is per-adapter mutable state `{modelsCache, lastModelsFetch}`; it
is modelled by explicit state passing. The `fetchFn` closure is modelled as
a function of the invocation index, and an invocation counter is threaded
through so that "fetchFn is invoked exactly once / not at all" is expressible. -/

/-- The `ModelInfo` record of shared/types.ts. -/
structure ModelInfo where
  id : String
  name : String
  supportsVision : Bool
  contextLength : Option Int := none
  description : Option String := none
deriving DecidableEq

/-- Mutable cache fields of `BaseProvider`. -/
structure ProviderCacheState where
  modelsCache : Option (List ModelInfo)
  lastModelsFetch : Int
  cacheTtl : Int
deriving DecidableEq

/-- Default TTL: five minutes in milliseconds. -/
def defaultCacheTtl : Int := 5 * 60 * 1000

/-- Initial cache state of a freshly constructed provider. -/
def freshCacheState : ProviderCacheState :=
  { modelsCache := none, lastModelsFetch := 0, cacheTtl := defaultCacheTtl }

/-- Model of `BaseProvider.fetchModelsWithCache`: return the cached list when
it exists and is younger than the TTL; otherwise invoke `fetchFn` once and,
on success only, store its result with a fresh timestamp. A failing
`fetchFn` propagates and leaves the state unchanged. -/
def fetchModelsWithCache (now : Int) (fetchFn : Nat → Except String (List ModelInfo))
    (calls : Nat) (s : ProviderCacheState) :
    Except String (List ModelInfo) × ProviderCacheState × Nat :=
  let doFetch :=
    match fetchFn calls with
    | Except.ok models =>
      (Except.ok models,
        { s with modelsCache := some models, lastModelsFetch := now }, calls + 1)
    | Except.error e => (Except.error e, s, calls + 1)
  match s.modelsCache with
  | some cache =>
    if now - s.lastModelsFetch < s.cacheTtl then (Except.ok cache, s, calls)
    else doFetch
  | none => doFetch

/-- Outcome of one HTTP discovery call, as seen by an adapter: a parsed
successful body, a non-ok status, or a thrown transport/shape error. -/
inductive FetchOutcome (α : Type) where
  | success (body : α)
  | httpError (status : Nat)
  | networkFailure (msg : String)

/-- Raw model entry of the Ollama `/api/tags` response. -/
structure OllamaModel where
  name : String
  size : Nat
deriving DecidableEq

/-- Size in gigabyte tenths, approximating `(size / 1e9).toFixed(1)` by
round-half-up decimal arithmetic. -/
def formatGB (size : Nat) : String :=
  let t := (size * 10 + 500000000) / 1000000000
  Nat.repr (t / 10) ++ "." ++ Nat.repr (t % 10)

/-- Mapping of one Ollama tag entry to `ModelInfo` (OllamaProvider 35-47). -/
def ollamaModelInfo (m : OllamaModel) : ModelInfo :=
  { id := m.name
    name := m.name
    supportsVision :=
      jsIncludes m.name "vision" || jsIncludes m.name "llava" ||
      jsIncludes m.name "bakllava" || jsIncludes m.name "vl"
    contextLength := none
    description := some ("Ollama model, size: " ++ formatGB m.size ++ " GB") }

/-- The `fetchFn` closure of `OllamaProvider.getAvailableModels`: a non-ok
response throws `HTTP error <status>`; there is no static fallback. -/
def ollamaFetchModels : FetchOutcome (List OllamaModel) → Except String (List ModelInfo)
  | FetchOutcome.success ms => Except.ok (ms.map ollamaModelInfo)
  | FetchOutcome.httpError st => Except.error ("HTTP error " ++ Nat.repr st)
  | FetchOutcome.networkFailure m => Except.error m

/-- Model of `OllamaProvider.getAvailableModels` (lines 29-50). -/
def ollamaGetAvailableModels (outcome : FetchOutcome (List OllamaModel)) (now : Int)
    (calls : Nat) (s : ProviderCacheState) :
    Except String (List ModelInfo) × ProviderCacheState × Nat :=
  fetchModelsWithCache now (fun _ => ollamaFetchModels outcome) calls s

/-- Raw model entry of the OpenRouter `/models` response. -/
structure OpenRouterModel where
  id : String
  name : Option String
  context_length : Option Int
  modality : Option String
  description : Option String
deriving DecidableEq

/-- Mapping of one OpenRouter entry to `ModelInfo` (OpenRouterProvider 40-50). -/
def openRouterModelInfo (m : OpenRouterModel) : ModelInfo :=
  { id := m.id
    name :=
      match m.name with
      | some n => if n = "" then m.id else n
      | none => m.id
    supportsVision :=
      m.modality = some "text+image" || jsIncludes m.id "vision" ||
      jsIncludes m.id "claude-3" || jsIncludes m.id "gpt-4"
    contextLength := m.context_length
    description := m.description }

/-- The `fetchFn` closure of `OpenRouterProvider.getAvailableModels`: a
non-ok response throws; there is no static fallback. -/
def openRouterFetchModels : FetchOutcome (List OpenRouterModel) → Except String (List ModelInfo)
  | FetchOutcome.success ms => Except.ok (ms.map openRouterModelInfo)
  | FetchOutcome.httpError st => Except.error ("HTTP error " ++ Nat.repr st)
  | FetchOutcome.networkFailure m => Except.error m

/-- Model of `OpenRouterProvider.getAvailableModels` (lines 33-51). -/
def openRouterGetAvailableModels (outcome : FetchOutcome (List OpenRouterModel)) (now : Int)
    (calls : Nat) (s : ProviderCacheState) :
    Except String (List ModelInfo) × ProviderCacheState × Nat :=
  fetchModelsWithCache now (fun _ => openRouterFetchModels outcome) calls s

/-- Raw model entry of the Gemini `/models` response. -/
structure GeminiApiModel where
  name : String
  displayName : Option String
  description : Option String
  supportedGenerationMethods : List String
  inputTokenLimit : Int
deriving DecidableEq

/-- Replace the first occurrence of `pat` by nothing (JavaScript
`String.prototype.replace` with a string pattern). -/
def replaceFirst (pat : List Char) : Nat → List Char → List Char
  | 0, l => l
  | _ + 1, [] => []
  | fuel + 1, c :: cs =>
    match charsMatch pat (c :: cs) with
    | some rest => rest
    | none => c :: replaceFirst pat fuel cs

/-- Mapping of one Gemini entry to `ModelInfo` (GeminiProvider 78-87). -/
def geminiModelInfo (m : GeminiApiModel) : ModelInfo :=
  { id := ⟨replaceFirst "models/".toList (m.name.toList.length + 1) m.name.toList⟩
    name :=
      match m.displayName with
      | some d => if d = "" then m.name else d
      | none => m.name
    supportsVision :=
      (match m.description with
       | some d => containsL "vision".toList (lowerL d.toList)
       | none => false) ||
      containsL "vision".toList (lowerL m.name.toList) ||
      (m.supportedGenerationMethods.contains "generateContent" &&
        decide ((100000 : Int) < m.inputTokenLimit))
    contextLength := some m.inputTokenLimit
    description := m.description }

/-- The hard-coded fallback list of `GeminiProvider.getAvailableModels`. -/
def geminiStaticModels : List ModelInfo :=
  [ { id := "gemini-2.5-flash", name := "Gemini 2.5 Flash", supportsVision := true
      contextLength := some 1000000
      description := some "Experimental multimodal model with vision support" },
    { id := "gemini-2.0-flash", name := "Gemini 2.0 Flash", supportsVision := true
      contextLength := some 1000000
      description := some "Fast, efficient multimodal model" },
    { id := "gemini-1.5-pro", name := "Gemini 1.5 Pro", supportsVision := true
      contextLength := some 2000000
      description := some "Largest and most capable multimodal model" },
    { id := "gemini-1.5-flash", name := "Gemini 1.5 Flash", supportsVision := true
      contextLength := some 1000000
      description := some "Balanced speed and capabilities" },
    { id := "gemini-1.0-pro", name := "Gemini 1.0 Pro", supportsVision := false
      contextLength := some 30000
      description := some "Legacy text-only model" } ]

/-- The `fetchFn` closure of `GeminiProvider.getAvailableModels`: live
discovery is attempted only with a nonempty key; every failure (caught
exception, non-ok status, or an empty filtered list) falls back to the
static list, so the closure never throws. -/
def geminiFetchModels (apiKey : String) (outcome : FetchOutcome (List GeminiApiModel)) :
    Except String (List ModelInfo) :=
  if apiKey ≠ "" then
    match outcome with
    | FetchOutcome.success ms =>
      let models :=
        (ms.filter (fun m => m.supportedGenerationMethods.contains "generateContent")).map
          geminiModelInfo
      if models.length > 0 then Except.ok models else Except.ok geminiStaticModels
    | _ => Except.ok geminiStaticModels
  else Except.ok geminiStaticModels

/-- Model of `GeminiProvider.getAvailableModels` (part_002 lines 65-135). -/
def geminiGetAvailableModels (apiKey : String) (outcome : FetchOutcome (List GeminiApiModel))
    (now : Int) (calls : Nat) (s : ProviderCacheState) :
    Except String (List ModelInfo) × ProviderCacheState × Nat :=
  fetchModelsWithCache now (fun _ => geminiFetchModels apiKey outcome) calls s

/-! ### Auxiliary definitions used by the verification statements -/

/-- The given pieces occur as substrings of `hay`, in order and without
overlap: `hay` decomposes as `a₀ ++ x₀ ++ a₁ ++ x₁ ++ ...`. -/
def appearInOrderS : String → List String → Prop
  | _, [] => True
  | hay, x :: xs => ∃ a b : String, hay = a ++ x ++ b ∧ appearInOrderS b xs

/-- First object field whose value is a string, used to discriminate JSON
values without decidable equality on `Json`. -/
def firstFieldStr : Json → String
  | Json.obj ((_, Json.str s) :: _) => s
  | _ => ""

/-- Count the non-overlapping occurrences of the numbered-task marker
`(?:\d+\.|Задача\s*\d+:|Task\s*\d+:)` anywhere in the text. -/
def countTaskMarkers : Nat → List Char → Nat
  | 0, _ => 0
  | _ + 1, [] => 0
  | fuel + 1, c :: cs =>
    match tryTaskMark (c :: cs) with
    | some rest => 1 + countTaskMarkers fuel rest
    | none => countTaskMarkers fuel cs

/-- String-level wrapper for `countTaskMarkers`. -/
def taskMarkerCount (s : String) : Nat := countTaskMarkers (s.toList.length + 1) s.toList

/-- Length of the `multipleTasks` list when present. -/
def multipleTasksCount (e : ExtractedContent) : Option Nat := e.multipleTasks.map List.length

/-- Value of a decimal digit string, used to invert `Nat.repr`. -/
def evalDigits (l : List Char) : Nat := l.foldl (fun a c => 10 * a + (c.toNat - 48)) 0

/-- Concrete input refuting C3: a well-formed JSON object whose string value
contains a fence marker. -/
def c3Input : String := "\x7b\"a\":\"```\"\x7d"

/-- Concrete input refuting C6: two numbered task markers on one line. -/
def c6Input : String := "Задача 1: aaa Задача 2: bbb"

/-- Concrete JSON object used as the C3 witness (scenario B of the spec). -/
def c3Obj : String := "\x7b\"problem_statement\":\"X\"\x7d"

/-- One well-formed numbered task line `Задача <num>: <body>`. -/
def taskLineL (num body : List Char) : List Char :=
  zadachaChars ++ ' ' :: (num ++ ':' :: ' ' :: body)

/-- Newline-joined numbered task lines, the input family of the amended
multi-task split claim. -/
def mkLinesL : List (List Char × List Char) → List Char
  | [] => []
  | [p] => taskLineL p.1 p.2
  | p :: q :: rest => taskLineL p.1 p.2 ++ '\n' :: mkLinesL (q :: rest)

/-! ### Theorems -/

/-- Helper: the pieces property is stable under prepending to the haystack. -/
theorem appearInOrderS_extend (u t : String) (xs : List String)
    (h : appearInOrderS t xs) : appearInOrderS (u ++ t) xs := by
  cases xs with
  | nil => trivial
  | cons x rest =>
    obtain ⟨a, b, ht, hrest⟩ := h
    exact ⟨u ++ a, b, by rw [ht]; simp [String.append_assoc], hrest⟩

/-- Helper: a separator join contains its parts in order. -/
theorem appearInOrderS_joinSep (sep : String) (parts : List String) :
    appearInOrderS (joinSep sep parts) parts := by
  induction parts with
  | nil => trivial
  | cons x rest ih =>
    cases rest with
    | nil => exact ⟨"", "", by simp [joinSep], trivial⟩
    | cons y ys =>
      refine ⟨"", sep ++ joinSep sep (y :: ys), ?_, appearInOrderS_extend sep _ _ ih⟩
      show joinSep sep (x :: y :: ys) = "" ++ x ++ (sep ++ joinSep sep (y :: ys))
      simp [joinSep, String.append_assoc]

/-- C1: for every input string the extraction parser never throws; when
strict JSON parsing of the cleaned text fails it returns the fallback record
whose `problem_statement` is the cleaned text, whose other fields are the
fixed placeholders, whose `_parse_error` flag is set, and whose
`_raw_response` preserves the original input. (Totality is by construction:
`parseProblemInfoResponse` is a total function.) -/
theorem claim_C1_extraction_fallback (content : String)
    (h : jsonParse (cleanedOf content) = none) :
    parseProblemInfoResponse content =
      ProblemInfoResult.fallback
        { problem_statement := cleanedOf content
          constraints := "No specific constraints extracted"
          example_input := "Not extracted"
          example_output := "Not extracted"
          _raw_response := content
          _parse_error := true } := by
  unfold parseProblemInfoResponse
  simp only [h]

/-- Witness for C1 at the concrete non-JSON input `"hello"`. -/
theorem claim_C1_witness :
    jsonParse (cleanedOf "hello") = none ∧
    parseProblemInfoResponse "hello" =
      ProblemInfoResult.fallback
        { problem_statement := cleanedOf "hello"
          constraints := "No specific constraints extracted"
          example_input := "Not extracted"
          example_output := "Not extracted"
          _raw_response := "hello"
          _parse_error := true } :=
  ⟨by rfl, claim_C1_extraction_fallback "hello" (by rfl)⟩

/-- Helper: the classifier preserves the input as `rawText` in every branch. -/
theorem rawText_parseExtraction (t : String) : (parseExtraction t).rawText = t := by
  unfold parseExtraction
  dsimp only
  split
  · rfl
  · split <;> rfl

/-- C7: classifier idempotence on category — re-running the classifier on
the `rawText` of a non-mixed result yields the same `type` (the classifier
stores the input itself as `rawText`, and is deterministic). -/
theorem claim_C7_classifier_idempotent (t : String)
    (h : (parseExtraction t).type ≠ CType.mixed) :
    (parseExtraction ((parseExtraction t).rawText)).type = (parseExtraction t).type := by
  rw [rawText_parseExtraction]

/-- Witness for C7 at the concrete input `"hello"`. -/
theorem claim_C7_witness :
    (parseExtraction "hello").type ≠ CType.mixed ∧
    (parseExtraction ((parseExtraction "hello").rawText)).type = (parseExtraction "hello").type :=
  ⟨by decide, claim_C7_classifier_idempotent "hello" (by decide)⟩

/-- C10: the solution parser always returns a nonempty thoughts list; when
no thought entries were recognized the fixed placeholder is substituted. -/
theorem claim_C10_thoughts_nonempty (s : String) :
    (parseMultiTaskResponse s).thoughts ≠ [] ∧
    (rawThoughtsOf s = [] → (parseMultiTaskResponse s).thoughts = [defaultThought]) := by
  unfold parseMultiTaskResponse
  constructor
  · simp only
    split
    · next hlen => exact fun hnil => by simp [hnil] at hlen
    · simp
  · intro hraw
    simp [hraw]

/-- Witness for C10 at the concrete input `"hello"`, which has no thoughts
section. -/
theorem claim_C10_witness :
    rawThoughtsOf "hello" = [] ∧ (parseMultiTaskResponse "hello").thoughts = [defaultThought] :=
  ⟨by rfl, (claim_C10_thoughts_nonempty "hello").2 (by rfl)⟩

/-- C5 counterexample: on `"do task 5 please"` the mixed signal fires (the
lowercased text matches `(задача|task)\s*\d+`) but the case-sensitive
splitting pattern finds no boundary, so the classifier returns a `mixed`
record whose `multipleTasks` is present and empty — no fallback to a single
task occurs. -/
theorem claim_C5_counterexample :
    (parseExtraction "do task 5 please").type = CType.mixed ∧
    (parseExtraction "do task 5 please").multipleTasks = some [] := ⟨rfl, rfl⟩

/-- Helper: `detectContentType` never returns the `mixed` category. -/
theorem detectContentType_ne_mixed (s : String) : detectContentType s ≠ CType.mixed := by
  unfold detectContentType
  dsimp only
  split_ifs <;> simp

/-- C5 amended: whenever `multipleTasks` is present it holds exactly the
elements produced by `splitIntoTasks`, each of which is non-mixed (its
category comes from `detectContentType`, which never yields `mixed`); the
list may however be empty, and no single-task fallback exists. -/
theorem claim_C5_amended (t : String) (l : List ExtractedContent)
    (h : (parseExtraction t).multipleTasks = some l) :
    l = splitIntoTasks t ∧ ∀ e ∈ l, e.type ≠ CType.mixed := by
  have hl : l = splitIntoTasks t := by
    unfold parseExtraction at h
    dsimp only at h
    split at h
    · simpa [ExtractedContent.multipleTasks] using h.symm
    · split at h <;> simp [ExtractedContent.multipleTasks] at h
  refine ⟨hl, ?_⟩
  intro e he
  rw [hl] at he
  unfold splitIntoTasks at he
  obtain ⟨cap, _, rfl⟩ := List.mem_map.mp he
  simpa [mkTaskElem, ExtractedContent.type] using detectContentType_ne_mixed _

/-- Witness for C5 amended at the concrete input `"do task 5 please"`. -/
theorem claim_C5_witness :
    [] = splitIntoTasks "do task 5 please" ∧
    ∀ e ∈ ([] : List ExtractedContent), e.type ≠ CType.mixed :=
  claim_C5_amended "do task 5 please" [] (by rfl)

/-- C8: the model cache returns the cached list without invoking `fetchFn`
while the TTL has not elapsed (the result does not depend on `fetchFn` and
the invocation counter is unchanged); after expiry or on an empty cache it
invokes `fetchFn` exactly once and stores a successful result with a fresh
timestamp; a failing `fetchFn` propagates and leaves cache and timestamp
unchanged. -/
theorem claim_C8_model_cache :
    (∀ (now : Int) (f : Nat → Except String (List ModelInfo)) (calls : Nat)
       (s : ProviderCacheState) (cache : List ModelInfo),
       s.modelsCache = some cache → now - s.lastModelsFetch < s.cacheTtl →
       fetchModelsWithCache now f calls s = (Except.ok cache, s, calls)) ∧
    (∀ (now : Int) (f : Nat → Except String (List ModelInfo)) (calls : Nat)
       (s : ProviderCacheState) (models : List ModelInfo),
       (s.modelsCache = none ∨ s.cacheTtl ≤ now - s.lastModelsFetch) →
       f calls = Except.ok models →
       fetchModelsWithCache now f calls s =
         (Except.ok models,
           { s with modelsCache := some models, lastModelsFetch := now }, calls + 1)) ∧
    (∀ (now : Int) (f : Nat → Except String (List ModelInfo)) (calls : Nat)
       (s : ProviderCacheState) (e : String),
       (s.modelsCache = none ∨ s.cacheTtl ≤ now - s.lastModelsFetch) →
       f calls = Except.error e →
       fetchModelsWithCache now f calls s = (Except.error e, s, calls + 1)) := by
  refine ⟨?_, ?_, ?_⟩
  · intro now f calls s cache hc hts
    unfold fetchModelsWithCache
    rw [hc]
    simp [hts]
  · intro now f calls s models hmiss hf
    unfold fetchModelsWithCache
    rcases hmiss with hnone | hexp
    · rw [hnone]; simp [hf]
    · cases hcase : s.modelsCache with
      | none => simp [hf]
      | some cache => simp [hf, not_lt.mpr hexp]
  · intro now f calls s e hmiss hf
    unfold fetchModelsWithCache
    rcases hmiss with hnone | hexp
    · rw [hnone]; simp [hf]
    · cases hcase : s.modelsCache with
      | none => simp [hf]
      | some cache => simp [hf, not_lt.mpr hexp]

/-- Witness for C8 at concrete states: a cache hit, an expired re-fetch and
a failing fetch. -/
theorem claim_C8_witness :
    (fetchModelsWithCache 1000 (fun _ => Except.error "net down") 0
        { modelsCache := some geminiStaticModels, lastModelsFetch := 900,
          cacheTtl := defaultCacheTtl } =
      (Except.ok geminiStaticModels,
        { modelsCache := some geminiStaticModels, lastModelsFetch := 900,
          cacheTtl := defaultCacheTtl }, 0)) ∧
    (fetchModelsWithCache 400000 (fun _ => Except.ok []) 0
        { modelsCache := some geminiStaticModels, lastModelsFetch := 0,
          cacheTtl := defaultCacheTtl } =
      (Except.ok [],
        { modelsCache := some [], lastModelsFetch := 400000,
          cacheTtl := defaultCacheTtl }, 1)) ∧
    (fetchModelsWithCache 0 (fun _ => Except.error "boom") 3 freshCacheState =
      (Except.error "boom", freshCacheState, 4)) :=
  ⟨claim_C8_model_cache.1 1000 _ 0 _ geminiStaticModels rfl (by decide),
   (claim_C8_model_cache.2.1) 400000 _ 0 _ [] (Or.inr (by decide)) rfl,
   (claim_C8_model_cache.2.2) 0 _ 3 freshCacheState "boom" (Or.inl rfl) rfl⟩

/-- C9 counterexample: `OllamaProvider.getAvailableModels` propagates a
non-ok HTTP status as an error instead of falling back to a static model
list — the caller does not receive a model list. -/
theorem claim_C9_counterexample :
    ollamaGetAvailableModels (FetchOutcome.httpError 500) 0 0 freshCacheState =
      (Except.error "HTTP error 500", freshCacheState, 1) := by rfl

/-- C9 amended: only the Gemini adapter degrades to its static hard-coded
list on discovery failure (missing key, thrown fetch, or non-ok status);
the Ollama and OpenRouter adapters propagate fetch failures to the caller. -/
theorem claim_C9_amended :
    (∀ (key : String) (st : Nat) (now : Int) (calls : Nat) (s : ProviderCacheState),
       s.modelsCache = none →
       geminiGetAvailableModels key (FetchOutcome.httpError st) now calls s =
         (Except.ok geminiStaticModels,
           { s with modelsCache := some geminiStaticModels, lastModelsFetch := now },
           calls + 1)) ∧
    (∀ (key msg : String) (now : Int) (calls : Nat) (s : ProviderCacheState),
       s.modelsCache = none →
       geminiGetAvailableModels key (FetchOutcome.networkFailure msg) now calls s =
         (Except.ok geminiStaticModels,
           { s with modelsCache := some geminiStaticModels, lastModelsFetch := now },
           calls + 1)) ∧
    (∀ (outcome : FetchOutcome (List GeminiApiModel)) (now : Int) (calls : Nat)
       (s : ProviderCacheState), s.modelsCache = none →
       geminiGetAvailableModels "" outcome now calls s =
         (Except.ok geminiStaticModels,
           { s with modelsCache := some geminiStaticModels, lastModelsFetch := now },
           calls + 1)) ∧
    (∀ (st : Nat) (now : Int) (calls : Nat) (s : ProviderCacheState),
       s.modelsCache = none →
       ollamaGetAvailableModels (FetchOutcome.httpError st) now calls s =
         (Except.error ("HTTP error " ++ Nat.repr st), s, calls + 1)) ∧
    (∀ (msg : String) (now : Int) (calls : Nat) (s : ProviderCacheState),
       s.modelsCache = none →
       openRouterGetAvailableModels (FetchOutcome.networkFailure msg) now calls s =
         (Except.error msg, s, calls + 1)) := by
  refine ⟨?_, ?_, ?_, ?_, ?_⟩
  · intro key st now calls s hs
    unfold geminiGetAvailableModels fetchModelsWithCache
    rw [hs]
    by_cases hkey : key = "" <;> simp [geminiFetchModels, hkey]
  · intro key msg now calls s hs
    unfold geminiGetAvailableModels fetchModelsWithCache
    rw [hs]
    by_cases hkey : key = "" <;> simp [geminiFetchModels, hkey]
  · intro outcome now calls s hs
    unfold geminiGetAvailableModels fetchModelsWithCache
    rw [hs]
    simp [geminiFetchModels]
  · intro st now calls s hs
    unfold ollamaGetAvailableModels fetchModelsWithCache
    rw [hs]
    simp [ollamaFetchModels]
  · intro msg now calls s hs
    unfold openRouterGetAvailableModels fetchModelsWithCache
    rw [hs]
    simp [openRouterFetchModels]

/-- Witness for C9 amended at concrete inputs. -/
theorem claim_C9_witness :
    (geminiGetAvailableModels "k" (FetchOutcome.httpError 503) 7 0 freshCacheState =
      (Except.ok geminiStaticModels,
        { freshCacheState with modelsCache := some geminiStaticModels, lastModelsFetch := 7 },
        1)) ∧
    (ollamaGetAvailableModels (FetchOutcome.httpError 404) 0 0 freshCacheState =
      (Except.error ("HTTP error " ++ Nat.repr 404), freshCacheState, 1)) ∧
    (openRouterGetAvailableModels (FetchOutcome.networkFailure "ECONNREFUSED") 0 0 freshCacheState =
      (Except.error "ECONNREFUSED", freshCacheState, 1)) :=
  ⟨claim_C9_amended.1 "k" 503 7 0 freshCacheState rfl,
   claim_C9_amended.2.2.2.1 404 0 0 freshCacheState rfl,
   claim_C9_amended.2.2.2.2 "ECONNREFUSED" 0 0 freshCacheState rfl⟩

/-- C2 counterexample: on an input with a single fenced block whose body has
trailing whitespace, the `code` field does not contain the captured block
verbatim — the parser trims the body and prefixes a task header. -/
theorem claim_C2_counterexample :
    codeBlocksOf "```\nx \n```" = ["x \n"] ∧
    jsIncludes (codeOf "```\nx \n```") "x \n" = false := ⟨rfl, rfl⟩

/-- Helper: `Nat.toDigitsCore` prepends to its accumulator. -/
theorem toDigitsCore_shift (f n : Nat) (ds : List Char) :
    Nat.toDigitsCore 10 f n ds = Nat.toDigitsCore 10 f n [] ++ ds := by
  induction f generalizing n ds with
  | zero => simp [Nat.toDigitsCore]
  | succ f ih =>
    unfold Nat.toDigitsCore
    dsimp only
    by_cases h : n / 10 = 0
    · simp [h]
    · rw [if_neg h, if_neg h, ih (n/10) (Nat.digitChar (n % 10) :: ds),
        ih (n/10) [Nat.digitChar (n % 10)]]
      simp

/-- Helper: `Nat.toDigitsCore` does not depend on sufficient fuel. -/
theorem toDigitsCore_fuel (n : Nat) : ∀ f g, n < f → n < g →
    Nat.toDigitsCore 10 f n [] = Nat.toDigitsCore 10 g n [] := by
  induction n using Nat.strong_induction_on with
  | _ n ih =>
    intro f g hf hg
    cases f with
    | zero => omega
    | succ f =>
      cases g with
      | zero => omega
      | succ g =>
        unfold Nat.toDigitsCore
        dsimp only
        by_cases h : n / 10 = 0
        · simp [h]
        · have hlt : n / 10 < n := Nat.div_lt_self (by omega) (by omega)
          rw [if_neg h, if_neg h, toDigitsCore_shift f _ _, toDigitsCore_shift g _ _]
          congr 1
          exact ih (n / 10) hlt f g (by omega) (by omega)

/-- Helper: value of one digit character. -/
theorem digitChar_val (d : Nat) (h : d < 10) : (Nat.digitChar d).toNat - 48 = d := by
  revert h
  revert d
  decide

/-- Helper: `evalDigits` inverts the decimal digit expansion. -/
theorem evalDigits_toDigits (n : Nat) : evalDigits (Nat.toDigitsCore 10 (n+1) n []) = n := by
  induction n using Nat.strong_induction_on with
  | _ n ih =>
    unfold Nat.toDigitsCore
    dsimp only
    by_cases h : n / 10 = 0
    · rw [if_pos h]
      have hn : n < 10 := by omega
      rw [show n % 10 = n from Nat.mod_eq_of_lt hn]
      simp [evalDigits, List.foldl, digitChar_val n hn]
    · rw [if_neg h]
      have hlt : n / 10 < n := Nat.div_lt_self (by omega) (by omega)
      rw [toDigitsCore_shift]
      rw [toDigitsCore_fuel (n/10) n (n/10 + 1) (by omega) (by omega)]
      have hih := ih (n/10) hlt
      unfold evalDigits at hih ⊢
      rw [List.foldl_append, hih]
      simp [digitChar_val (n % 10) (Nat.mod_lt _ (by omega))]
      omega

/-- Helper: the decimal representation of naturals is injective. -/
theorem natRepr_inj (m n : Nat) (h : Nat.repr m = Nat.repr n) : m = n := by
  unfold Nat.repr Nat.toDigits at h
  have hl : Nat.toDigitsCore 10 (m+1) m [] = Nat.toDigitsCore 10 (n+1) n [] := by
    have h2 := congrArg String.toList h
    simpa [List.asString, String.toList] using h2
  have h3 := congrArg evalDigits hl
  rwa [evalDigits_toDigits, evalDigits_toDigits] at h3

/-- Helper: distinct task ordinals give distinct code headers. -/
theorem codeHeader_inj (m n : Nat) (h : codeHeader m = codeHeader n) : m = n := by
  unfold codeHeader taskTitle at h
  have hdata := congrArg String.data h
  simp only [String.data_append, List.append_assoc] at hdata
  have h1 := List.append_cancel_left hdata
  have h2 := List.append_cancel_left h1
  have h3 := List.append_cancel_right h2
  exact natRepr_inj m n (String.ext h3)

/-- C2 amended: with `N` fenced code blocks, the `code` field is the raw
response when `N = 0`; a fixed `Задача 1` header followed by the trimmed
block body when `N = 1`; and for `N > 1` it contains the trimmed bodies in
their original order, each prefixed with its numbered task header. -/
theorem claim_C2_amended (s : String) :
    (codeBlocksOf s = [] → codeOf s = s) ∧
    (∀ b, codeBlocksOf s = [b] → codeOf s = codeHeader 1 ++ jsTrim b) ∧
    (2 ≤ (codeBlocksOf s).length →
      appearInOrderS (codeOf s)
        ((codeBlocksOf s).mapIdx (fun i b => codeHeader (i + 1) ++ jsTrim b))) ∧
    (∀ i j : Nat, codeHeader i = codeHeader j → i = j) := by
  refine ⟨?_, ?_, ?_, fun i j => codeHeader_inj i j⟩
  · intro h; unfold codeOf; rw [h]
  · intro b h; unfold codeOf; rw [h]
  · intro hlen
    cases hbs : codeBlocksOf s with
    | nil => rw [hbs] at hlen; simp at hlen
    | cons x rest =>
      cases rest with
      | nil => rw [hbs] at hlen; simp at hlen
      | cons y ys =>
        unfold codeOf
        rw [hbs]
        exact appearInOrderS_joinSep _ _

/-- Witness for C2 amended at concrete inputs with zero, one and two code
blocks. -/
theorem claim_C2_witness :
    codeOf "no fences" = "no fences" ∧
    codeOf "```\na\n```" = codeHeader 1 ++ jsTrim "a\n" ∧
    appearInOrderS (codeOf "```\na\n``` ```\nb\n```")
      ((codeBlocksOf "```\na\n``` ```\nb\n```").mapIdx
        (fun i b => codeHeader (i + 1) ++ jsTrim b)) ∧
    (codeHeader 1 = codeHeader 1 → (1 : Nat) = 1) :=
  ⟨(claim_C2_amended "no fences").1 (by rfl),
   (claim_C2_amended "```\na\n```").2.1 "a\n" (by rfl),
   (claim_C2_amended "```\na\n``` ```\nb\n```").2.2.1 (by decide),
   (claim_C2_amended "x").2.2.2 1 1⟩

/-- C3 counterexample: the input is itself a well-formed JSON object, but
fence stripping deletes the backticks inside its string value, so the parser
recovers a different object than the one encoded. -/
theorem claim_C3_counterexample :
    jsonParse c3Input = some (Json.obj [("a", Json.str "```")]) ∧
    parseProblemInfoResponse c3Input = ProblemInfoResult.parsed (Json.obj [("a", Json.str "")]) ∧
    firstFieldStr (Json.obj [("a", Json.str "")]) ≠
      firstFieldStr (Json.obj [("a", Json.str "```")]) :=
  ⟨rfl, rfl, by decide⟩

/-- C4 counterexample: a text containing a review marker together with the
substring `1.` is classified `mixed`, not `code_review` — the multi-task
override in `parseExtraction` beats the review priority. -/
theorem claim_C4_counterexample :
    reviewMarker (lowerL "review this:\n1. fix".toList) = true ∧
    (parseExtraction "review this:\n1. fix").type = CType.mixed ∧
    CType.mixed ≠ CType.code_review := ⟨rfl, rfl, by decide⟩

/-- Helper: review markers win the priority chain of `detectContentType`. -/
theorem detect_review (t : String) (hr : reviewMarker (lowerL t.toList) = true) :
    detectContentType t = CType.code_review := by
  unfold detectContentType; dsimp only
  simp only [String.toList] at hr
  simp [hr]

/-- C4 amended: `detectContentType` evaluates its markers case-insensitively
in the fixed priority review, SQL, concurrency, numbered tasks, default —
first match wins; but the final record type is `code_review` for a
review-marker text only when the text does not also contain the substring
`1.` (or a numbered-task signal), in which case `parseExtraction` overrides
the detected category with `mixed`. -/
theorem claim_C4_amended :
    (∀ t : String, reviewMarker (lowerL t.toList) = true →
        detectContentType t = CType.code_review) ∧
    (∀ t : String, reviewMarker (lowerL t.toList) = false →
        sqlMarker (lowerL t.toList) = true → detectContentType t = CType.sql_task) ∧
    (∀ t : String, reviewMarker (lowerL t.toList) = false →
        sqlMarker (lowerL t.toList) = false → mtMarker (lowerL t.toList) = true →
        detectContentType t = CType.multithreading) ∧
    (∀ t : String, reviewMarker (lowerL t.toList) = false →
        sqlMarker (lowerL t.toList) = false → mtMarker (lowerL t.toList) = false →
        hasNumberedTask (lowerL t.toList) = true →
        detectContentType t = CType.multiple_tasks) ∧
    (∀ t : String, reviewMarker (lowerL t.toList) = false →
        sqlMarker (lowerL t.toList) = false → mtMarker (lowerL t.toList) = false →
        hasNumberedTask (lowerL t.toList) = false →
        detectContentType t = CType.coding_task) ∧
    (∀ t : String, reviewMarker (lowerL t.toList) = true → jsIncludes t "1." = false →
        (parseExtraction t).type = CType.code_review) := by
  refine ⟨detect_review, ?_, ?_, ?_, ?_, ?_⟩
  · intro t h1 h2; unfold detectContentType; dsimp only
    simp only [String.toList] at h1 h2; simp [h1, h2]
  · intro t h1 h2 h3; unfold detectContentType; dsimp only
    simp only [String.toList] at h1 h2 h3; simp [h1, h2, h3]
  · intro t h1 h2 h3 h4; unfold detectContentType; dsimp only
    simp only [String.toList] at h1 h2 h3 h4; simp [h1, h2, h3, h4]
  · intro t h1 h2 h3 h4; unfold detectContentType; dsimp only
    simp only [String.toList] at h1 h2 h3 h4; simp [h1, h2, h3, h4]
  · intro t hr h1
    unfold parseExtraction
    dsimp only
    rw [detect_review t hr]
    simp [h1, ExtractedContent.type]

/-- Witness for C4 amended at concrete inputs, one per priority branch. -/
theorem claim_C4_witness :
    detectContentType "please REVIEW" = CType.code_review ∧
    detectContentType "write a SELECT query" = CType.sql_task ∧
    detectContentType "use parallel streams" = CType.multithreading ∧
    detectContentType "Задача 2" = CType.multiple_tasks ∧
    detectContentType "just text" = CType.coding_task ∧
    (parseExtraction "please REVIEW").type = CType.code_review :=
  ⟨claim_C4_amended.1 _ (by rfl),
   claim_C4_amended.2.1 _ (by rfl) (by rfl),
   claim_C4_amended.2.2.1 _ (by rfl) (by rfl) (by rfl),
   claim_C4_amended.2.2.2.1 _ (by rfl) (by rfl) (by rfl) (by rfl),
   claim_C4_amended.2.2.2.2.1 _ (by rfl) (by rfl) (by rfl) (by rfl),
   claim_C4_amended.2.2.2.2.2 _ (by rfl) (by rfl)⟩

/-- C6 counterexample: the example input carries exactly two numbered task
markers, but both sit on one line, so the line-anchored splitting pattern
finds a single boundary: `splitIntoTasks` returns one element, and the
classifier example yields `multipleTasks` of length one, not two. -/
theorem claim_C6_counterexample :
    taskMarkerCount c6Input = 2 ∧
    (splitIntoTasks c6Input).length = 1 ∧
    (parseExtraction c6Input).type = CType.mixed ∧
    multipleTasksCount (parseExtraction c6Input) = some 1 := ⟨rfl, rfl, rfl, rfl⟩

/-- Helper: matching a literal pattern against itself plus a tail. -/
theorem charsMatch_self (pat l : List Char) : charsMatch pat (pat ++ l) = some l := by
  induction pat with
  | nil => rfl
  | cons c cs ih => simp [charsMatch, ih]

/-- Helper: a literal pattern fails on a text with a different head. -/
theorem charsMatch_none_of_head (p : Char) (ps : List Char) (c : Char) (cs : List Char)
    (h : c ≠ p) : charsMatch (p :: ps) (c :: cs) = none := by
  simp [charsMatch, h]

/-- Helper: fence stripping of the empty text. -/
theorem stripFences_nil (fuel : Nat) : stripFences fuel [] = [] := by
  cases fuel <;> rfl

/-- Helper: one scanning step of `stripFences` over a non-backtick head. -/
theorem stripFences_step_plain (fuel : Nat) (c : Char) (cs : List Char) (hc : c ≠ btick) :
    stripFences (fuel + 1) (c :: cs) = c :: stripFences fuel cs := by
  have h1 : charsMatch fenceJson (c :: cs) = none := by
    rw [show fenceJson = btick :: [btick, btick, 'j', 's', 'o', 'n'] from rfl]
    exact charsMatch_none_of_head _ _ _ _ hc
  have h2 : charsMatch fence3 (c :: cs) = none := by
    rw [show fence3 = btick :: [btick, btick] from rfl]
    exact charsMatch_none_of_head _ _ _ _ hc
  conv_lhs => unfold stripFences
  rw [h1, h2]

/-- Helper: fence stripping passes a backtick-free segment through
unchanged, consuming one unit of fuel per character. -/
theorem stripFences_clean_append (xs ys : List Char) (fuel : Nat)
    (h : ∀ c ∈ xs, c ≠ btick) :
    stripFences (xs.length + fuel) (xs ++ ys) = xs ++ stripFences fuel ys := by
  induction xs with
  | nil => simp
  | cons c cs ih =>
    have hc : c ≠ btick := h c (by simp)
    have hcs : ∀ d ∈ cs, d ≠ btick := fun d hd => h d (by simp [hd])
    have hlen : (c :: cs).length + fuel = (cs.length + fuel) + 1 := by
      simp [List.length_cons]; omega
    rw [hlen, List.cons_append, stripFences_step_plain _ _ _ hc, ih hcs, List.cons_append]

/-- Helper: fence stripping is the identity on backtick-free text. -/
theorem stripFences_clean (l : List Char) (fuel : Nat) (h : ∀ c ∈ l, c ≠ btick) :
    stripFences (l.length + fuel) l = l := by
  have := stripFences_clean_append l [] fuel h
  simpa [stripFences_nil] using this

/-- Helper: fence stripping consumes a leading ` ```json ` marker. -/
theorem stripFences_fenceJson_step (n : Nat) (rest : List Char) :
    stripFences (n + 1) (fenceJson ++ rest) = stripFences n rest := by
  have hshape : fenceJson ++ rest = btick :: ([btick, btick, 'j', 's', 'o', 'n'] ++ rest) := rfl
  rw [hshape]
  conv_lhs => unfold stripFences
  rw [← hshape, charsMatch_self]

/-- Helper: fence stripping erases a trailing bare fence marker. -/
theorem stripFences_fence3 (f : Nat) : stripFences (f + 1) fence3 = [] := by
  have hshape : (fence3 : List Char) = btick :: [btick, btick] := rfl
  rw [hshape]
  conv_lhs => unfold stripFences
  rw [show charsMatch fenceJson (btick :: [btick, btick]) = none from rfl]
  rw [show charsMatch fence3 (btick :: [btick, btick]) = some [] from rfl]
  exact stripFences_nil f

/-- Helper: `dropWhile` distributes over an append whose right part starts
with a character outside the predicate. -/
theorem dropWhile_append_stop (p : Char → Bool) (xs ys : List Char)
    (h : ∀ c, ys.head? = some c → p c = false) :
    (xs ++ ys).dropWhile p = xs.dropWhile p ++ ys := by
  induction xs with
  | nil =>
    cases ys with
    | nil => rfl
    | cons c cs => simp [List.dropWhile_cons, h c rfl]
  | cons x xs ih =>
    by_cases hx : p x
    · simp [List.dropWhile_cons, hx, ih]
    · simp [List.dropWhile_cons, hx]

/-- Helper: `takeWhile` truncates an append at the first failing character
of the right part when the left part satisfies the predicate. -/
theorem takeWhile_append_stop (p : Char → Bool) (xs : List Char) (c : Char) (zs : List Char)
    (hxs : ∀ x ∈ xs, p x = true) (hc : p c = false) :
    (xs ++ c :: zs).takeWhile p = xs := by
  induction xs with
  | nil => simp [List.takeWhile_cons, hc]
  | cons x xs ih =>
    have hx : p x = true := hxs x (by simp)
    have hxs2 : ∀ y ∈ xs, p y = true := fun y hy => hxs y (by simp [hy])
    simp [List.takeWhile_cons, hx, ih hxs2]

/-- Helper: the brace span of `pre ++ s ++ post` is exactly `s` when `pre`
holds no opening brace, `post` holds no closing brace, and `s` itself starts
with `{` and ends with `}`. -/
theorem braceSpan_wrap (pre sL post : List Char)
    (hpre : ∀ c ∈ pre, c ≠ '{')
    (hpost : ∀ c ∈ post, c ≠ '}')
    (hhead : ∃ l, sL = '{' :: l)
    (hlast : ∃ l, sL = l ++ ['}']) :
    braceSpan (pre ++ sL ++ post) = some sL := by
  obtain ⟨l1, hl1⟩ := hhead
  obtain ⟨l2, hl2⟩ := hlast
  have htake : (pre ++ sL ++ post).takeWhile (· != '{') = pre := by
    rw [hl1, List.append_assoc]
    exact takeWhile_append_stop _ pre '{' (l1 ++ post)
      (fun x hx => by simpa using hpre x hx) (by simp)
  have hdrop : (pre ++ sL ++ post).drop pre.length = sL ++ post := by
    rw [List.append_assoc]
    exact List.drop_left pre (sL ++ post)
  have hrev : (sL ++ post).reverse = post.reverse ++ '}' :: l2.reverse := by
    rw [hl2]; simp
  have htake2 : (post.reverse ++ '}' :: l2.reverse).takeWhile (· != '}') = post.reverse :=
    takeWhile_append_stop _ post.reverse '}' l2.reverse
      (fun x hx => by simpa using hpost x (List.mem_reverse.mp hx)) (by simp)
  have hdrop2 : (post.reverse ++ '}' :: l2.reverse).drop post.reverse.length =
      '}' :: l2.reverse := List.drop_left _ _
  have hne1 : sL ++ post ≠ [] := by rw [hl1]; simp
  have hne2 : ('}' :: l2.reverse : List Char) ≠ [] := by simp
  unfold braceSpan
  dsimp only
  rw [htake, hdrop, hrev, htake2, hdrop2]
  rw [if_neg (by simp [hne1, hne2])]
  have : ('}' :: l2.reverse).reverse = sL := by rw [hl2]; simp
  rw [this]

/-- Helper: rebuilding a string from its character list. -/
theorem string_mk_toList (s : String) : (⟨s.toList⟩ : String) = s := rfl

/-- Helper: trimming `pre ++ s ++ post` keeps `s` intact when `s` starts and
ends with a non-whitespace character. -/
theorem jsTrimL_wrap (pre sL post : List Char)
    (hhead : ∃ l, sL = '{' :: l)
    (hlast : ∃ l, sL = l ++ ['}']) :
    jsTrimL (pre ++ sL ++ post) =
      pre.dropWhile jsIsSpace ++ sL ++ (post.reverse.dropWhile jsIsSpace).reverse := by
  obtain ⟨l1, hl1⟩ := hhead
  obtain ⟨l2, hl2⟩ := hlast
  unfold jsTrimL
  have h1 : (pre ++ sL ++ post).dropWhile jsIsSpace =
      pre.dropWhile jsIsSpace ++ (sL ++ post) := by
    rw [List.append_assoc]
    refine dropWhile_append_stop _ pre (sL ++ post) ?_
    intro c hc
    rw [hl1] at hc
    simp at hc
    rw [← hc]
    decide
  rw [h1]
  have h2 : (pre.dropWhile jsIsSpace ++ (sL ++ post)).reverse =
      post.reverse ++ (sL.reverse ++ (pre.dropWhile jsIsSpace).reverse) := by
    simp
  rw [h2]
  have h3 : (post.reverse ++ (sL.reverse ++ (pre.dropWhile jsIsSpace).reverse)).dropWhile
      jsIsSpace = post.reverse.dropWhile jsIsSpace ++
        (sL.reverse ++ (pre.dropWhile jsIsSpace).reverse) := by
    refine dropWhile_append_stop _ _ _ ?_
    intro c hc
    rw [hl2] at hc
    simp at hc
    rw [← hc]
    decide
  rw [h3]
  simp

/-- C3 amended: the extraction parser recovers the exact JSON object when
the object text (starting with `{`, ending with `}`, containing no backtick)
is wrapped either in prose free of backticks and of braces outside the
object, or in a single markdown ` ```json ` fence; fence markers inside the
JSON itself (see the counterexample) or extra braces in the wrapping can
change or lose the recovered object. -/
theorem claim_C3_amended :
    (∀ (pre s post : String) (v : Json),
      jsonParse s = some v →
      (∀ c ∈ pre.toList, c ≠ btick ∧ c ≠ '{') →
      (∀ c ∈ post.toList, c ≠ btick ∧ c ≠ '}') →
      (∀ c ∈ s.toList, c ≠ btick) →
      (∃ l, s.toList = '{' :: l) → (∃ l, s.toList = l ++ ['}']) →
      parseProblemInfoResponse (pre ++ s ++ post) = ProblemInfoResult.parsed v) ∧
    (∀ (s : String) (v : Json),
      jsonParse s = some v →
      (∀ c ∈ s.toList, c ≠ btick) →
      (∃ l, s.toList = '{' :: l) → (∃ l, s.toList = l ++ ['}']) →
      parseProblemInfoResponse ("```json\n" ++ s ++ "\n```") = ProblemInfoResult.parsed v) := by
  constructor
  · intro pre s post v hv hpre hpost hs hhead hlast
    have hclean : cleanedList (pre ++ s ++ post).toList = s.toList := by
      unfold cleanedList
      have hcontent : (pre ++ s ++ post).toList = pre.toList ++ s.toList ++ post.toList := by
        simp [String.toList]
      rw [hcontent]
      have hnb : ∀ c ∈ pre.toList ++ s.toList ++ post.toList, c ≠ btick := by
        intro c hc
        simp only [List.mem_append] at hc
        rcases hc with (hc | hc) | hc
        · exact (hpre c hc).1
        · exact hs c hc
        · exact (hpost c hc).1
      have hlen : (pre.toList ++ s.toList ++ post.toList).length + 1 =
          (pre.toList ++ s.toList ++ post.toList).length + 1 := rfl
      rw [stripFences_clean _ 1 hnb]
      rw [jsTrimL_wrap _ _ _ hhead hlast]
      dsimp only
      rw [braceSpan_wrap _ _ _
        (fun c hc => (hpre c ((List.dropWhile_sublist _).mem hc)).2)
        (fun c hc => (hpost c (List.mem_reverse.mp
          ((List.dropWhile_sublist _).mem (List.mem_reverse.mp hc)))).2)
        hhead hlast]
    unfold parseProblemInfoResponse cleanedOf
    rw [hclean, string_mk_toList]
    dsimp only
    rw [hv]
  · intro s v hv hs hhead hlast
    have hclean : cleanedList ("```json\n" ++ s ++ "\n```").toList = s.toList := by
      unfold cleanedList
      have hcontent : ("```json\n" ++ s ++ "\n```").toList =
          fenceJson ++ (('\n' :: s.toList ++ ['\n']) ++ fence3) := by
        simp only [String.toList]
        show ("```json\n" ++ s ++ "\n```").data =
          fenceJson ++ (('\n' :: s.data ++ ['\n']) ++ fence3)
        simp [String.data_append, fenceJson, fence3, btick]
      rw [hcontent]
      have hlen : (fenceJson ++ (('\n' :: s.toList ++ ['\n']) ++ fence3)).length + 1 =
          (('\n' :: s.toList ++ ['\n']).length + 10) + 1 := by
        simp [fenceJson, fence3]
      rw [hlen]
      rw [stripFences_fenceJson_step]
      rw [stripFences_clean_append ('\n' :: s.toList ++ ['\n']) fence3 10 ?hnb]
      case hnb =>
        intro c hc
        simp at hc
        rcases hc with hc | hc | hc
        · rw [hc]; decide
        · exact hs c hc
        · rw [hc]; decide
      rw [show stripFences 10 fence3 = [] from stripFences_fence3 9]
      rw [List.append_nil]
      have hxs : ('\n' :: s.toList ++ ['\n']) = ['\n'] ++ s.toList ++ ['\n'] := by simp
      rw [hxs, jsTrimL_wrap _ _ _ hhead hlast]
      have hd1 : (['\n'] : List Char).dropWhile jsIsSpace = [] := by decide
      have hd2 : ((['\n'] : List Char).reverse.dropWhile jsIsSpace).reverse = [] := by decide
      rw [hd1, hd2]
      dsimp only
      rw [braceSpan_wrap [] s.toList [] (by simp) (by simp) hhead hlast]
    unfold parseProblemInfoResponse cleanedOf
    rw [hclean, string_mk_toList]
    dsimp only
    rw [hv]

/-- Helper: a decimal digit is not regex whitespace. -/
theorem digit_not_space (c : Char) (h : jsIsDigit c = true) : jsIsSpace c = false := by
  unfold jsIsDigit at h
  unfold jsIsSpace
  simp only [Bool.and_eq_true, decide_eq_true_eq] at h
  simp only [Bool.or_eq_false_iff, decide_eq_false_iff_not, Bool.and_eq_false_iff,
    decide_eq_true_eq, not_le]
  omega

/-- Helper: a non-whitespace character is not a newline. -/
theorem not_space_ne_nl (c : Char) (h : jsIsSpace c = false) : c ≠ '\n' := by
  intro hc; rw [hc] at h; exact absurd h (by decide)

/-- Helper: `takeWhile` keeps a list all of whose members satisfy the
predicate. -/
theorem takeWhile_all (p : Char → Bool) (l : List Char) (h : ∀ c ∈ l, p c = true) :
    l.takeWhile p = l := by
  induction l with
  | nil => rfl
  | cons c cs ih =>
    simp [List.takeWhile_cons, h c (by simp), ih (fun d hd => h d (by simp [hd]))]

/-- Helper: the head surviving `dropWhile` fails the predicate. -/
theorem dropWhile_head_false (p : Char → Bool) (l : List Char) (c : Char) (cs : List Char)
    (h : l.dropWhile p = c :: cs) : p c = false := by
  induction l with
  | nil => simp at h
  | cons x xs ih =>
    rw [List.dropWhile_cons] at h
    by_cases hx : p x
    · rw [if_pos hx] at h; exact ih h
    · rw [if_neg hx] at h
      cases h
      simpa using hx

/-- Helper: a pattern is a prefix of itself plus a tail. -/
theorem startsWithL_append (pat x : List Char) : startsWithL pat (pat ++ x) = true := by
  unfold startsWithL
  rw [charsMatch_self]
  rfl

/-- Helper: the whitespace backtracking succeeds immediately when the text
ahead starts with a non-newline character. -/
theorem wsBack_head (wRev : List Char) (c : Char) (cs : List Char) (hc : c ≠ '\n') :
    wsBack wRev (c :: cs) = some (c :: cs) := by
  cases wRev <;> simp [wsBack, hc]

/-- Helper: the task scan of the empty text is empty. -/
theorem taskScanFrom_nil (f : Nat) : taskScanFrom f [] = [] := by
  cases f <;> rfl

/-- Helper: one scanning step of the global task pattern at a newline. -/
theorem taskScanFrom_nl (f : Nat) (cs : List Char) :
    taskScanFrom (f + 1) ('\n' :: cs) =
      match matchTaskAt cs with
      | some (cap, rest) => cap :: taskScanFrom f rest
      | none => taskScanFrom f cs := by
  conv_lhs => unfold taskScanFrom
  simp

/-- Helper: the greedy continuation stops at the end of input or before a
marker-lookahead line. -/
theorem taskCont_stop (n : Nat) (acc t : List Char)
    (ht : t = [] ∨ ∃ u, t = '\n' :: u ∧ contBreak u = true) :
    taskCont n acc t = (acc, t) := by
  cases n with
  | zero => rfl
  | succ n =>
    rcases ht with rfl | ⟨u, rfl, hu⟩
    · rfl
    · unfold taskCont
      simp [hu]

/-- Helper: the digit-dot marker fails on a non-digit head. -/
theorem tryNumDot_nondigit (c : Char) (cs : List Char) (hc : jsIsDigit c = false) :
    tryNumDot (c :: cs) = none := by
  unfold tryNumDot
  simp [List.takeWhile_cons, hc]

/-- Helper: the numbered-task marker on a well-formed task line consumes
exactly `Задача <num>:`. -/
theorem tryTaskMark_taskLine (num body t : List Char)
    (hne : num ≠ []) (hdig : ∀ c ∈ num, jsIsDigit c = true) :
    tryTaskMark (taskLineL num body ++ t) = some (' ' :: (body ++ t)) := by
  have hshape : taskLineL num body ++ t =
      zadachaChars ++ (' ' :: (num ++ ':' :: ' ' :: (body ++ t))) := by
    unfold taskLineL
    simp
  rw [hshape]
  have h0 : tryNumDot (zadachaChars ++ (' ' :: (num ++ ':' :: ' ' :: (body ++ t)))) = none := by
    rw [show (zadachaChars ++ (' ' :: (num ++ ':' :: ' ' :: (body ++ t)))) =
      'З' :: ("адача".toList ++ (' ' :: (num ++ ':' :: ' ' :: (body ++ t)))) from rfl]
    exact tryNumDot_nondigit _ _ (by decide)
  have hdrop : (' ' :: (num ++ ':' :: ' ' :: (body ++ t))).dropWhile jsIsSpace =
      num ++ ':' :: ' ' :: (body ++ t) := by
    rw [List.dropWhile_cons, if_pos (by decide)]
    cases num with
    | nil => exact absurd rfl hne
    | cons d ds =>
      rw [List.cons_append, List.dropWhile_cons,
        if_neg (by simp [digit_not_space d (hdig d (by simp))])]
  have htw : (num ++ ':' :: ' ' :: (body ++ t)).takeWhile jsIsDigit = num :=
    takeWhile_append_stop _ _ _ _ (fun x hx => hdig x hx) (by decide)
  have h1 : tryWordNum zadachaChars
      (zadachaChars ++ (' ' :: (num ++ ':' :: ' ' :: (body ++ t)))) =
      some (' ' :: (body ++ t)) := by
    unfold tryWordNum
    rw [charsMatch_self]
    dsimp only
    rw [hdrop, htw, if_neg hne, List.drop_left]
    rfl
  unfold tryTaskMark
  rw [h0, h1]

/-- Helper: the full task-pattern match on a well-formed task line captures
the body (minus leading whitespace) and stops before the line terminator. -/
theorem matchTaskAt_taskLine (num body t : List Char)
    (hne : num ≠ []) (hdig : ∀ c ∈ num, jsIsDigit c = true)
    (hnl : ∀ c ∈ body, c ≠ '\n') (hws : ∃ c ∈ body, jsIsSpace c = false)
    (ht : t = [] ∨ ∃ u, t = '\n' :: u ∧ contBreak u = true) :
    matchTaskAt (taskLineL num body ++ t) = some (body.dropWhile jsIsSpace, t) := by
  unfold matchTaskAt
  rw [tryTaskMark_taskLine num body t hne hdig]
  dsimp only
  obtain ⟨c0, br, hbr⟩ : ∃ c0 br, body.dropWhile jsIsSpace = c0 :: br := by
    cases hcase : body.dropWhile jsIsSpace with
    | nil =>
      obtain ⟨c, hc, hcws⟩ := hws
      have : ∀ a ∈ body, jsIsSpace a = true := by
        rw [← List.dropWhile_eq_nil_iff]
        exact hcase
      rw [this c hc] at hcws
      simp at hcws
    | cons c0 br => exact ⟨c0, br, rfl⟩
  have hc0 : jsIsSpace c0 = false := dropWhile_head_false _ _ _ _ hbr
  have hc0nl : c0 ≠ '\n' := not_space_ne_nl _ hc0
  have hsplit : body = body.takeWhile jsIsSpace ++ (c0 :: br) := by
    rw [← hbr, List.takeWhile_append_dropWhile]
  have hwsmem : ∀ x ∈ body.takeWhile jsIsSpace, jsIsSpace x = true :=
    fun x hx => List.mem_takeWhile_imp hx
  have hw : (' ' :: (body ++ t)).takeWhile jsIsSpace =
      ' ' :: body.takeWhile jsIsSpace := by
    rw [List.takeWhile_cons, if_pos (by decide)]
    have hb : body ++ t = body.takeWhile jsIsSpace ++ (c0 :: (br ++ t)) := by
      conv_lhs => rw [hsplit]
      simp
    rw [hb, takeWhile_append_stop _ _ _ _ hwsmem hc0]
  have hdropw : List.drop (' ' :: body.takeWhile jsIsSpace).length (' ' :: (body ++ t)) =
      c0 :: (br ++ t) := by
    have hb : (' ' :: (body ++ t)) =
        (' ' :: body.takeWhile jsIsSpace) ++ (c0 :: (br ++ t)) := by
      conv_lhs => rw [hsplit]
      simp
    rw [hb, List.drop_left]
  have hbrnl : ∀ x ∈ c0 :: br, x != '\n' := by
    intro x hx
    have : x ∈ body := by
      rw [hsplit]
      exact List.mem_append_right _ hx
    simpa using hnl x this
  have hline : (c0 :: (br ++ t)).takeWhile (· != '\n') = c0 :: br := by
    show ((c0 :: br) ++ t).takeWhile (· != '\n') = c0 :: br
    rcases ht with rfl | ⟨u, rfl, _⟩
    · rw [List.append_nil]
      exact takeWhile_all _ _ hbrnl
    · exact takeWhile_append_stop _ _ _ _ hbrnl (by simp)
  have hdrop2 : List.drop (c0 :: br).length (c0 :: (br ++ t)) = t := by
    show List.drop (c0 :: br).length ((c0 :: br) ++ t) = t
    exact List.drop_left _ _
  rw [hw, hdropw, wsBack_head _ _ _ hc0nl]
  dsimp only
  rw [hline, hdrop2, taskCont_stop _ _ _ ht, hbr]

/-- Helper: length of one task line. -/
theorem taskLineL_length (num body : List Char) :
    (taskLineL num body).length = num.length + body.length + 9 := by
  unfold taskLineL zadachaChars
  simp
  omega

/-- Helper: a nonempty line family starts with the word `Задача`. -/
theorem mkLinesL_starts (ts : List (List Char × List Char)) (hts : ts ≠ []) :
    ∃ x, mkLinesL ts = zadachaChars ++ x := by
  cases ts with
  | nil => exact absurd rfl hts
  | cons p rest =>
    cases rest with
    | nil => exact ⟨' ' :: (p.1 ++ ':' :: ' ' :: p.2), rfl⟩
    | cons q rs =>
      refine ⟨' ' :: (p.1 ++ ':' :: ' ' :: p.2) ++ '\n' :: mkLinesL (q :: rs), ?_⟩
      show taskLineL p.1 p.2 ++ '\n' :: mkLinesL (q :: rs) = _
      unfold taskLineL
      simp

/-- Helper: the negative lookahead is positive on a line family (it starts
with `Задача`), stopping the greedy continuation. -/
theorem contBreak_mkLines (ts : List (List Char × List Char)) (hts : ts ≠ []) :
    contBreak (mkLinesL ts) = true := by
  obtain ⟨x, hx⟩ := mkLinesL_starts ts hts
  unfold contBreak
  rw [hx, startsWithL_append]
  simp

/-- Helper: the scanning loop applied after a newline to a family of
well-formed task lines returns one capture per line. -/
theorem taskScanFrom_mkLines (ts : List (List Char × List Char)) (fuel : Nat)
    (hfuel : (mkLinesL ts).length + 1 ≤ fuel)
    (hnum : ∀ p ∈ ts, p.1 ≠ [] ∧ ∀ c ∈ p.1, jsIsDigit c = true)
    (hbody : ∀ p ∈ ts, (∀ c ∈ p.2, c ≠ '\n') ∧ ∃ c ∈ p.2, jsIsSpace c = false) :
    taskScanFrom fuel ('\n' :: mkLinesL ts) =
      ts.map (fun p => p.2.dropWhile jsIsSpace) := by
  induction ts generalizing fuel with
  | nil =>
    cases fuel with
    | zero => omega
    | succ f =>
      rw [show mkLinesL [] = [] from rfl]
      rw [taskScanFrom_nl]
      rw [show matchTaskAt [] = none from rfl]
      simp [taskScanFrom_nil]
  | cons p rest ih =>
    cases fuel with
    | zero =>
      exfalso
      have := taskLineL_length p.1 p.2
      cases rest <;> simp [mkLinesL] at hfuel
    | succ f =>
      have hp := hnum p (by simp)
      have hb := hbody p (by simp)
      cases rest with
      | nil =>
        rw [show mkLinesL [p] = taskLineL p.1 p.2 from rfl]
        rw [taskScanFrom_nl]
        rw [show taskLineL p.1 p.2 = taskLineL p.1 p.2 ++ [] by simp]
        rw [matchTaskAt_taskLine _ _ _ hp.1 hp.2 hb.1 hb.2 (Or.inl rfl)]
        simp [taskScanFrom_nil]
      | cons q rs =>
        rw [show mkLinesL (p :: q :: rs) =
          taskLineL p.1 p.2 ++ '\n' :: mkLinesL (q :: rs) from rfl]
        rw [taskScanFrom_nl]
        rw [matchTaskAt_taskLine _ _ _ hp.1 hp.2 hb.1 hb.2
          (Or.inr ⟨mkLinesL (q :: rs), rfl, contBreak_mkLines _ (by simp)⟩)]
        have hfuel2 : (mkLinesL (q :: rs)).length + 1 ≤ f := by
          have hlen : (mkLinesL (p :: q :: rs)).length =
              (taskLineL p.1 p.2).length + 1 + (mkLinesL (q :: rs)).length := by
            rw [show mkLinesL (p :: q :: rs) =
              taskLineL p.1 p.2 ++ '\n' :: mkLinesL (q :: rs) from rfl]
            simp
            omega
          have := taskLineL_length p.1 p.2
          omega
        dsimp only
        rw [ih f hfuel2 (fun x hx => hnum x (by simp [hx])) (fun x hx => hbody x (by simp [hx]))]
        simp

/-- Helper: the full global scan over a family of well-formed task lines
returns one capture per line. -/
theorem splitScanL_mkLines (ts : List (List Char × List Char)) (hts : ts ≠ [])
    (hnum : ∀ p ∈ ts, p.1 ≠ [] ∧ ∀ c ∈ p.1, jsIsDigit c = true)
    (hbody : ∀ p ∈ ts, (∀ c ∈ p.2, c ≠ '\n') ∧ ∃ c ∈ p.2, jsIsSpace c = false) :
    splitScanL (mkLinesL ts) = ts.map (fun p => p.2.dropWhile jsIsSpace) := by
  cases ts with
  | nil => exact absurd rfl hts
  | cons p rest =>
    have hp := hnum p (by simp)
    have hb := hbody p (by simp)
    unfold splitScanL
    cases rest with
    | nil =>
      rw [show mkLinesL [p] = taskLineL p.1 p.2 from rfl]
      conv_lhs => rw [show taskLineL p.1 p.2 = taskLineL p.1 p.2 ++ [] by simp]
      rw [matchTaskAt_taskLine _ _ _ hp.1 hp.2 hb.1 hb.2 (Or.inl rfl)]
      simp [taskScanFrom_nil]
    | cons q rs =>
      rw [show mkLinesL (p :: q :: rs) =
        taskLineL p.1 p.2 ++ '\n' :: mkLinesL (q :: rs) from rfl]
      rw [matchTaskAt_taskLine _ _ _ hp.1 hp.2 hb.1 hb.2
        (Or.inr ⟨mkLinesL (q :: rs), rfl, contBreak_mkLines _ (by simp)⟩)]
      have hfuel : (mkLinesL (q :: rs)).length + 1 ≤
          (taskLineL p.1 p.2 ++ '\n' :: mkLinesL (q :: rs)).length + 1 := by
        simp
        omega
      dsimp only
      rw [taskScanFrom_mkLines (q :: rs) _ hfuel
        (fun x hx => hnum x (by simp [hx])) (fun x hx => hbody x (by simp [hx]))]
      simp

/-- Helper: elements built by `splitIntoTasks` are never mixed. -/
theorem mkTaskElem_ne_mixed (cap : List Char) : (mkTaskElem cap).type ≠ CType.mixed := by
  simpa [mkTaskElem, ExtractedContent.type] using detectContentType_ne_mixed (jsTrim ⟨cap⟩)

/-- C6 amended: the splitter produces one element per numbered task marker
sitting at the start of the text or immediately after a newline — for a
family of `k ≥ 2` newline-separated lines `Задача <num>: <body>` (digits in
the number, a newline-free body with some non-blank character) it returns
exactly `k` non-mixed elements; markers mid-line do not split, so the
one-line example of the claim yields a single element (see the
counterexample). The concrete two-line example returns two elements. -/
theorem claim_C6_amended :
    (∀ ts : List (List Char × List Char),
      2 ≤ ts.length →
      (∀ p ∈ ts, p.1 ≠ [] ∧ ∀ c ∈ p.1, jsIsDigit c = true) →
      (∀ p ∈ ts, (∀ c ∈ p.2, c ≠ '\n') ∧ ∃ c ∈ p.2, jsIsSpace c = false) →
      (splitIntoTasks ⟨mkLinesL ts⟩).length = ts.length ∧
        ∀ e ∈ splitIntoTasks ⟨mkLinesL ts⟩, e.type ≠ CType.mixed) ∧
    ((splitIntoTasks "Задача 1: aaa\nЗадача 2: bbb").length = 2 ∧
      ∀ e ∈ splitIntoTasks "Задача 1: aaa\nЗадача 2: bbb", e.type ≠ CType.mixed) := by
  constructor
  · intro ts hlen hnum hbody
    have hts : ts ≠ [] := by
      intro h; rw [h] at hlen; simp at hlen
    have hscan : splitIntoTasks ⟨mkLinesL ts⟩ =
        (ts.map (fun p => p.2.dropWhile jsIsSpace)).map mkTaskElem := by
      unfold splitIntoTasks
      rw [show (⟨mkLinesL ts⟩ : String).toList = mkLinesL ts from rfl]
      rw [splitScanL_mkLines ts hts hnum hbody]
    rw [hscan]
    constructor
    · simp
    · intro e he
      simp only [List.mem_map] at he
      obtain ⟨cap, _, rfl⟩ := he
      exact mkTaskElem_ne_mixed _
  · refine ⟨rfl, ?_⟩
    decide

/-- Witness for C6 amended at the concrete two-line family. -/
theorem claim_C6_witness :
    (splitIntoTasks ⟨mkLinesL [(['1'], "aaa".toList), (['2'], "bbb".toList)]⟩).length =
      ([(['1'], "aaa".toList), (['2'], "bbb".toList)] :
        List (List Char × List Char)).length ∧
    ∀ e ∈ splitIntoTasks ⟨mkLinesL [(['1'], "aaa".toList), (['2'], "bbb".toList)]⟩,
      e.type ≠ CType.mixed :=
  claim_C6_amended.1 [(['1'], "aaa".toList), (['2'], "bbb".toList)]
    (by decide) (by decide) (by decide)

/-- Witness for C3 amended: the exact object is recovered through a prose
wrapping and through a markdown fence wrapping. -/
theorem claim_C3_witness :
    parseProblemInfoResponse ("Here is the result: " ++ c3Obj ++ " -- end") =
      ProblemInfoResult.parsed (Json.obj [("problem_statement", Json.str "X")]) ∧
    parseProblemInfoResponse ("```json\n" ++ c3Obj ++ "\n```") =
      ProblemInfoResult.parsed (Json.obj [("problem_statement", Json.str "X")]) :=
  ⟨claim_C3_amended.1 "Here is the result: " c3Obj " -- end" _ (by rfl)
      (by decide) (by decide) (by decide)
      ⟨"\"problem_statement\":\"X\"\x7d".toList, by rfl⟩
      ⟨"\x7b\"problem_statement\":\"X\"".toList, by rfl⟩,
   claim_C3_amended.2 c3Obj _ (by rfl) (by decide)
      ⟨"\"problem_statement\":\"X\"\x7d".toList, by rfl⟩
      ⟨"\x7b\"problem_statement\":\"X\"".toList, by rfl⟩⟩

end Spec2Proof
